import Mathlib

/-!
Verification of the heap-allocator pair (implicit and explicit free-list
variants) against its natural-language specification.

The two C translation units are shallowly embedded.  Machine words
(`size_t`) are modelled as `Nat` reduced modulo `2 ^ 64` at every
arithmetic step where the C code can wrap; memory is a map from byte
addresses to 64-bit words (all header and link accesses in the source are
8-byte aligned loads and stores of one word).  A null pointer is address
`0`.  The compile-time constant `MAX_REQUEST_SIZE` lives in a header that
is not part of the repository, so every operation takes it as an explicit
parameter `MAXR`, as the specification describes it: a host-supplied upper
bound on any single rounded request.

The C scan and free-list loops are modelled with an explicit fuel
parameter; exhausting the fuel returns `none` (the marker for a run that
the bounded model cannot finish, which for well-formed states never
happens), while a loop that exits normally returns `some` of its result.
-/

/-- `2 ^ 64`, the modulus of `size_t` arithmetic. -/
def W : Nat := 2 ^ 64

/-- Reduce a value to a 64-bit word, as C unsigned arithmetic does. -/
def wrap (n : Nat) : Nat := n % W

/-- 64-bit unsigned subtraction `a - b` (wrapping, as `size_t` does). -/
def sub64 (a b : Nat) : Nat := (a + (W - b % W)) % W

/-- Word-addressed memory: byte address of an aligned word to its value. -/
def Mem : Type := Nat → Nat

/-- Load the 64-bit word at address `a`. -/
def readW (m : Mem) (a : Nat) : Nat := m a % W

/-- Store value `v` in the word at address `a`. -/
def writeW (m : Mem) (a v : Nat) : Mem := fun x => if x = a then v else m x

/-- The all-zero memory, used as the backing region in concrete runs. -/
def zeroMem : Mem := fun _ => 0

/-- `memmove(dst, src, n)` at word granularity: the source block format
keeps every copied payload a multiple of 8 bytes long, and word `k` of the
destination receives word `k` of the original (pre-copy) source, which is
exactly the overlap-safe guarantee of `memmove`. -/
def memmoveW (m : Mem) (dst src n : Nat) : Mem :=
  (List.range (n / 8)).foldl (fun acc k => writeW acc (dst + 8 * k) (readW m (src + 8 * k))) m

namespace Imp

/-- Global heap state of `implicit.c`: `heapStart`, `heapSize`, `sizeUsed`
together with the backing memory. -/
structure IState where
  mem : Mem
  heapStart : Nat
  heapSize : Nat
  sizeUsed : Nat

/-- `roundup` from `implicit.c`: `(number + 8 - 1) & ~(8 - 1)` in `size_t`
arithmetic (`~7` is `2 ^ 64 - 8`). -/
def roundup (number : Nat) : Nat := wrap (number + 8 - 1) &&& (W - 8)

/-- `splitFunc` from `implicit.c`: carve the remainder of a large free
block into a new free header; returns the updated `used` out-parameter and
memory. -/
def splitFunc (m : Mem) (used hAddr payload requested : Nat) : Nat × Mem :=
  if 16 ≤ sub64 payload requested then
    let splitAddress := hAddr + (8 + requested)
    let m1 := writeW m splitAddress (sub64 payload (wrap (requested + 8)))
    let m2 := writeW m1 hAddr requested
    (wrap (8 + requested), m2)
  else (used, m)

/-- `myinit` from `implicit.c`. -/
def myinit (m0 : Mem) (heap_start heap_size : Nat) : Option IState :=
  if heap_start = 0 then none
  else some { mem := writeW m0 heap_start (sub64 heap_size 8)
              heapStart := heap_start
              heapSize := heap_size
              sizeUsed := 0 }

/-- The first-fit scan of `mymalloc` in `implicit.c` (the `for` loop over
block offsets `i`), with fuel. -/
def mallocLoop (MAXR r : Nat) (s : IState) : Nat → Nat → Option (Option Nat × IState)
  | _, 0 => none
  | i, fuel + 1 =>
    if i < s.heapSize then
      let hAddr := s.heapStart + i
      let h := readW s.mem hAddr
      let payload := h
      let state := h &&& 1
      if state = 0 ∧ r ≤ MAXR ∧ r ≤ payload then
        let used0 := wrap (8 + payload)
        let um := if 16 ≤ sub64 payload r then splitFunc s.mem used0 hAddr payload r
                  else (used0, s.mem)
        let m2 := writeW um.2 hAddr (readW um.2 hAddr ^^^ 1)
        some (some (hAddr + 8), { s with mem := m2, sizeUsed := wrap (s.sizeUsed + um.1) })
      else
        let payload1 := if state = 1 then payload ^^^ 1 else payload
        mallocLoop MAXR r s (wrap (wrap (i + payload1) + 8)) fuel
    else some (none, s)

/-- `mymalloc` from `implicit.c`. -/
def mymalloc (MAXR : Nat) (s : IState) (requested_size : Nat) : Option (Option Nat × IState) :=
  if requested_size = 0 then some (none, s)
  else
    let r := roundup requested_size
    if MAXR < r ∨ s.heapSize < wrap (r + s.sizeUsed) then some (none, s)
    else mallocLoop MAXR r s 0 (s.heapSize / 8 + 1)

/-- `myfree` from `implicit.c`: flip the allocation bit and decrement the
usage counter by the (cleared) header value plus 8. -/
def myfree (s : IState) (ptr : Nat) : IState :=
  if ptr ≠ 0 then
    let hAddr := ptr - 8
    let m1 := writeW s.mem hAddr (readW s.mem hAddr ^^^ 1)
    let t := wrap (readW m1 hAddr + 8)
    { s with mem := m1, sizeUsed := sub64 s.sizeUsed t }
  else s

/-- The scan of `myrealloc` in `implicit.c`, with fuel.  At the first
fitting free block it either returns `old_ptr` unchanged (when the old
payload exceeds `new_size`) or frees the old block, places the request,
copies the data and returns the new payload pointer. -/
def reallocLoop (MAXR r new_size old_ptr : Nat) (s : IState) : Nat → Nat → Option (Option Nat × IState)
  | _, 0 => none
  | i, fuel + 1 =>
    if i < s.heapSize then
      let hAddr := s.heapStart + i
      let h := readW s.mem hAddr
      let payload := h
      let state := h &&& 1
      if state = 0 ∧ r ≤ MAXR ∧ r ≤ payload then
        let used0 := wrap (8 + payload)
        let oldAddr := old_ptr - 8
        if new_size < readW s.mem oldAddr ^^^ 1 then some (some old_ptr, s)
        else
          let mA := writeW s.mem oldAddr (readW s.mem oldAddr ^^^ 1)
          let sizeUsedA := sub64 s.sizeUsed (wrap (readW mA oldAddr + 8))
          let um := if 16 ≤ sub64 payload r then splitFunc mA used0 hAddr payload r
                    else (used0, mA)
          let mC := writeW um.2 hAddr (readW um.2 hAddr ^^^ 1)
          let sizeUsedB := wrap (sizeUsedA + um.1)
          let newPtr := hAddr + 8
          let mD := memmoveW mC newPtr old_ptr (readW mC oldAddr)
          some (some newPtr, { s with mem := mD, sizeUsed := sizeUsedB })
      else
        let payload1 := if state = 1 then payload ^^^ 1 else payload
        reallocLoop MAXR r new_size old_ptr s (wrap (wrap (i + payload1) + 8)) fuel
    else some (none, s)

/-- `myrealloc` from `implicit.c`. -/
def myrealloc (MAXR : Nat) (s : IState) (old_ptr new_size : Nat) : Option (Option Nat × IState) :=
  if new_size = 0 ∧ old_ptr ≠ 0 then some (some old_ptr, myfree s old_ptr)
  else
    let r := roundup new_size
    if MAXR < r ∨ s.heapSize < wrap (r + s.sizeUsed) then some (none, s)
    else if old_ptr = 0 then mymalloc MAXR s new_size
    else reallocLoop MAXR r new_size old_ptr s 0 (s.heapSize / 8 + 1)

/-- Block-layout well-formedness for the implicit heap: `bs` lists the
payload size and allocated flag of each block, in address order; the
header word at each block start is `payload + flag`, payloads are
multiples of 8, and the blocks tile the region exactly. -/
def tiles (m : Mem) : Nat → Nat → List (Nat × Bool) → Bool
  | addr, stop, [] => addr == stop
  | addr, stop, pa :: bs =>
    (readW m addr == pa.1 + (if pa.2 then 1 else 0)) && (pa.1 % 8 == 0) &&
    tiles m (addr + (8 + pa.1)) stop bs

/-- Well-formed implicit heap state: the blocks in `bs` tile the region,
the usage counter is bounded by the region length, and the length is a
64-bit value. -/
def repIb (s : IState) (bs : List (Nat × Bool)) : Bool :=
  tiles s.mem s.heapStart (s.heapStart + s.heapSize) bs &&
  decide (s.sizeUsed ≤ s.heapSize) && decide (s.heapSize < W)

end Imp

namespace Exp

/-- Global heap state of `explicit.c`: the implicit globals plus the
free-list head `freeEnd` and the free-byte counter `freeSpace`. -/
structure EState where
  mem : Mem
  heapStart : Nat
  heapSize : Nat
  sizeUsed : Nat
  freeEnd : Nat
  freeSpace : Nat

/-- `roundup` from `explicit.c` (textually identical to the implicit one). -/
def roundup (number : Nat) : Nat := wrap (number + 8 - 1) &&& (W - 8)

/-- Store a `curr_header` struct (size word, `prev` link, `next` link) at
address `a`:  three word stores. -/
def writeStruct (m : Mem) (a h p n : Nat) : Mem :=
  writeW (writeW (writeW m a h) (a + 8) p) (a + 16) n

/-- `splitFunc` from `explicit.c`: write the new free block after the
first `16 + requested` bytes, let it inherit the selected block's links,
repoint the list neighbours (or the head) at it.  Returns the new memory,
the `used` and `payload` out-parameters, and the new `freeEnd`. -/
def splitFunc (m : Mem) (freeEnd currentFree payload requested : Nat) : Mem × Nat × Nat × Nat :=
  let mprev := readW m (currentFree + 8)
  let mnext := readW m (currentFree + 16)
  let splitAddress := currentFree + 16 + requested
  let m1 := writeStruct m splitAddress (sub64 payload (wrap (requested + 16))) mprev mnext
  let used := wrap (16 + requested)
  let payload1 := requested
  let m2 := if mnext ≠ 0 then writeStruct m1 mnext (readW m1 mnext) splitAddress (readW m1 (mnext + 16))
            else m1
  if mprev ≠ 0 then
    (writeStruct m2 mprev (readW m2 mprev) (readW m2 (mprev + 8)) splitAddress, used, payload1, freeEnd)
  else (m2, used, payload1, splitAddress)

/-- `cantSplit` from `explicit.c`: unlink the whole block from the
doubly-linked free list.  Returns the new memory, the `used`
out-parameter, and the new `freeEnd` (note the source sets the head to the
removed block's `prev` when the removed block was the list tail). -/
def cantSplit (m : Mem) (freeEnd currentFree payload : Nat) : Mem × Nat × Nat :=
  let mprev := readW m (currentFree + 8)
  let mnext := readW m (currentFree + 16)
  let used := wrap (16 + payload)
  let mf1 := if mprev ≠ 0 then (writeStruct m mprev (readW m mprev) (readW m (mprev + 8)) mnext, freeEnd)
             else (m, mnext)
  if mnext ≠ 0 then
    (writeStruct mf1.1 mnext (readW mf1.1 mnext) mprev (readW mf1.1 (mnext + 16)), used, mf1.2)
  else if mprev ≠ 0 then (mf1.1, used, mprev)
  else (mf1.1, used, 0)

/-- `myinit` from `explicit.c`: one region-spanning free block whose
header records `heap_size - 16`, with null links. -/
def myinit (m0 : Mem) (heap_start heap_size : Nat) : Option EState :=
  if heap_start = 0 then none
  else some { mem := writeStruct m0 heap_start (sub64 heap_size 16) 0 0
              heapStart := heap_start
              heapSize := heap_size
              sizeUsed := 0
              freeEnd := heap_start
              freeSpace := heap_size }

/-- The free-list walk of `mymalloc` in `explicit.c` (the `while (space > 0)`
loop), with fuel. -/
def mallocLoop (MAXR r : Nat) (s : EState) : Nat → Nat → Nat → Option (Option Nat × EState)
  | _, _, 0 => none
  | space, currentFree, fuel + 1 =>
    if space = 0 then some (none, s)
    else if currentFree = 0 then some (none, s)
    else
      let h := readW s.mem currentFree
      let mprev := readW s.mem (currentFree + 8)
      let mnext := readW s.mem (currentFree + 16)
      let payload := h
      let state := h &&& 1
      if state = 0 ∧ r ≤ MAXR ∧ r ≤ payload then
        let mupf := if 24 < sub64 payload r then splitFunc s.mem s.freeEnd currentFree payload r
                    else
                      let muf := cantSplit s.mem s.freeEnd currentFree payload
                      (muf.1, muf.2.1, payload, muf.2.2)
        let sizeUsed1 := wrap (s.sizeUsed + mupf.2.1)
        let freeSpace1 := sub64 s.freeSpace mupf.2.1
        let h1 := if mupf.2.2.1 &&& 1 = 0 then mupf.2.2.1 ^^^ 1 else h
        let m2 := writeStruct mupf.1 currentFree h1 mprev mnext
        some (some (currentFree + 16),
              { s with mem := m2, sizeUsed := sizeUsed1, freeSpace := freeSpace1, freeEnd := mupf.2.2.2 })
      else
        mallocLoop MAXR r s (sub64 space (wrap (16 + payload))) mnext fuel

/-- `mymalloc` from `explicit.c`. -/
def mymalloc (MAXR : Nat) (s : EState) (requested_size : Nat) : Option (Option Nat × EState) :=
  if requested_size = 0 then some (none, s)
  else
    let r := roundup requested_size
    if MAXR < r ∨ s.heapSize < wrap (r + s.sizeUsed) then some (none, s)
    else mallocLoop MAXR r s s.freeSpace s.freeEnd (s.freeSpace + 1)

/-- `myfree` from `explicit.c`.  The counters are updated first; then the
right neighbour is inspected.  When the neighbour is inside the region and
free, the freed block absorbs it and its list position.  When the
neighbour address is past the region end, the freed block is pushed at the
list head (LIFO).  When the neighbour is inside the region but allocated,
the source updates nothing besides the counters (the `else` of the bounds
check is the only insertion path). -/
def myfree (s : EState) (ptr : Nat) : EState :=
  if ptr ≠ 0 then
    let header := ptr - 16
    let h0 := readW s.mem header
    let payload := h0 ^^^ 1
    let t := wrap (payload + 16)
    let sizeUsed1 := sub64 s.sizeUsed t
    let freeSpace1 := wrap (s.freeSpace + t)
    let s1 := { s with sizeUsed := sizeUsed1, freeSpace := freeSpace1 }
    let nextAddress := ptr + payload
    if nextAddress < s.heapStart + s.heapSize then
      let nh := readW s.mem nextAddress
      let nprev := readW s.mem (nextAddress + 8)
      let nnext := readW s.mem (nextAddress + 16)
      if nh &&& 1 = 0 then
        let newPayload := wrap (payload + (16 + nh))
        let mA := writeStruct s.mem header newPayload nprev nnext
        let mB := if nprev ≠ 0 then writeStruct mA nprev (readW mA nprev) (readW mA (nprev + 8)) header
                  else mA
        let mC := if nnext ≠ 0 then writeStruct mB nnext (readW mB nnext) header (readW mB (nnext + 16))
                  else mB
        let fe := if nprev = 0 then header else s.freeEnd
        { s1 with mem := mC, freeEnd := fe }
      else s1
    else
      let mA := if s.freeEnd ≠ 0 then writeStruct s.mem s.freeEnd (readW s.mem s.freeEnd) header (readW s.mem (s.freeEnd + 16))
                else s.mem
      let mB := writeStruct mA header payload 0 s.freeEnd
      { s1 with mem := mB, freeEnd := header }
  else s

/-- The free-list walk of `myrealloc` in `explicit.c`, with fuel: places
the rounded request, copies `old_payload` bytes to the new payload, frees
the old block, returns the new payload pointer. -/
def reallocLoop (MAXR r old_ptr old_payload : Nat) (s : EState) : Nat → Nat → Nat → Option (Option Nat × EState)
  | _, _, 0 => none
  | space, currentFree, fuel + 1 =>
    if space = 0 then some (none, s)
    else if currentFree = 0 then some (none, s)
    else
      let h := readW s.mem currentFree
      let mprev := readW s.mem (currentFree + 8)
      let mnext := readW s.mem (currentFree + 16)
      let payload := h
      let state := h &&& 1
      if state = 0 ∧ r ≤ MAXR ∧ r ≤ payload then
        let mupf := if 24 < sub64 payload r then splitFunc s.mem s.freeEnd currentFree payload r
                    else
                      let muf := cantSplit s.mem s.freeEnd currentFree payload
                      (muf.1, muf.2.1, payload, muf.2.2)
        let sizeUsed1 := wrap (s.sizeUsed + mupf.2.1)
        let freeSpace1 := sub64 s.freeSpace mupf.2.1
        let h1 := if mupf.2.2.1 &&& 1 = 0 then mupf.2.2.1 ^^^ 1 else h
        let m2 := writeStruct mupf.1 currentFree h1 mprev mnext
        let newPtr := currentFree + 16
        let m3 := memmoveW m2 newPtr old_ptr old_payload
        let s2 := myfree { s with mem := m3, sizeUsed := sizeUsed1, freeSpace := freeSpace1, freeEnd := mupf.2.2.2 } old_ptr
        some (some newPtr, s2)
      else
        reallocLoop MAXR r old_ptr old_payload s (sub64 space (wrap (16 + payload))) mnext fuel

/-- `myrealloc` from `explicit.c`. -/
def myrealloc (MAXR : Nat) (s : EState) (old_ptr new_size : Nat) : Option (Option Nat × EState) :=
  if new_size = 0 ∧ old_ptr ≠ 0 then some (some old_ptr, myfree s old_ptr)
  else
    let r := roundup new_size
    if MAXR < r ∨ s.heapSize < wrap (r + s.sizeUsed) then some (none, s)
    else if old_ptr = 0 then mymalloc MAXR s new_size
    else
      let old_payload := readW s.mem (old_ptr - 16) ^^^ 1
      if r ≤ old_payload then some (some old_ptr, s)
      else reallocLoop MAXR r old_ptr old_payload s s.freeSpace s.freeEnd (s.freeSpace + 1)

/-- The block sweep of `validate_heap` in `explicit.c` (the `for` loop
accumulating `used` and `frees`), with fuel. -/
def vsweep (s : EState) : Nat → Nat → Nat → Nat → Option (Nat × Nat)
  | _, _, _, 0 => none
  | i, used, frees, fuel + 1 =>
    if i < s.heapSize then
      let a := s.heapStart + i
      let h := readW s.mem a
      let state := h &&& 1
      if state = 1 then
        let payload := h ^^^ 1
        vsweep s (wrap (wrap (i + payload) + 16)) (wrap (used + (16 + payload))) frees fuel
      else
        let payload := h
        vsweep s (wrap (wrap (i + payload) + 16)) used (wrap (frees + (16 + payload))) fuel
    else some (used, frees)

/-- The free-list walk of `validate_heap` in `explicit.c`, with fuel:
`some none` when a visited node carries the allocated flag (the validator
fails), otherwise `some (some freed)` with the accumulated
`sum of (payload + 16)` over the visited nodes. -/
def vwalk (m : Mem) : Nat → Nat → Nat → Option (Option Nat)
  | _, _, 0 => none
  | current, freed, fuel + 1 =>
    if current = 0 then some (some freed)
    else
      let freePayload := readW m current
      if freePayload &&& 1 = 1 then some none
      else vwalk m (readW m (current + 16)) (wrap (freed + (freePayload + 16))) fuel

/-- `validate_heap` from `explicit.c`, with fuel for its two loops. -/
def validate_heap (s : EState) (fuel1 fuel2 : Nat) : Option Bool :=
  if s.heapSize < s.sizeUsed then some false
  else
    match vsweep s 0 0 0 fuel1 with
    | none => none
    | some uf =>
      match vwalk s.mem s.freeEnd 0 fuel2 with
      | none => none
      | some none => some false
      | some (some _) =>
        if wrap (uf.2 + uf.1) ≠ s.heapSize then some false
        else if wrap (s.freeSpace + s.sizeUsed) ≠ s.heapSize then some false
        else some true

/-- Free-list well-formedness: `ns` lists the node addresses in walk
order; the head is `cur`, every node is non-null with a clear flag, its
`prev` word names the preceding node (`0` for the head) and its `next`
word the following one. -/
def flistD (m : Mem) : Nat → Nat → List Nat → Bool
  | cur, _, [] => cur == 0
  | cur, prv, a :: ns =>
    (cur == a) && decide (0 < a) && (readW m a % 2 == 0) && (readW m (a + 8) == prv) &&
    flistD m (readW m (a + 16)) a ns

/-- Total footprint (`16 + payload` each) of the listed free blocks. -/
def sumFree (m : Mem) (ns : List Nat) : Nat := ns.foldr (fun a acc => 16 + readW m a + acc) 0

/-- Well-formed explicit heap state (the part the claims need): the
doubly-linked free list rooted at `freeEnd` is `ns`, the free counter is
its exact footprint sum, and the counters are bounded by the region
length, itself a 64-bit value. -/
def repEb (s : EState) (ns : List Nat) : Bool :=
  flistD s.mem s.freeEnd 0 ns && (s.freeSpace == sumFree s.mem ns) &&
  decide (s.sizeUsed + s.freeSpace ≤ s.heapSize) && decide (s.heapSize < W)

/-- `old` is a plausible allocated payload pointer for the heap whose free
list is `ns`: its header word (16 bytes below) carries the allocated flag,
its footprint is covered by the usage counter, and the header word lies
outside the span of every free block (so list surgery, splitting and the
payload copy cannot touch it). -/
def oldBlockOK (s : EState) (ns : List Nat) (old : Nat) : Bool :=
  decide (16 ≤ old) && (readW s.mem (old - 16) % 2 == 1) &&
  decide (wrap ((readW s.mem (old - 16) ^^^ 1) + 16) ≤ s.sizeUsed) &&
  ns.all (fun a => decide (old - 16 < a) || decide (a + 16 + readW s.mem a < old - 16))

end Exp

section Helpers

theorem W_pos : 0 < W := by decide

theorem wrap_lt (n : Nat) : wrap n < W := Nat.mod_lt _ W_pos

theorem wrap_eq_of_lt {n : Nat} (h : n < W) : wrap n = n := Nat.mod_eq_of_lt h

theorem readW_lt (m : Mem) (a : Nat) : readW m a < W := Nat.mod_lt _ W_pos

theorem sub64_eq_sub {a b : Nat} (hb : b ≤ a) (ha : a < W) : sub64 a b = a - b := by
  have hbW : b < W := lt_of_le_of_lt hb ha
  unfold sub64
  rw [Nat.mod_eq_of_lt hbW]
  have h1 : a + (W - b) = (a - b) + W := by omega
  rw [h1, Nat.add_mod_right, Nat.mod_eq_of_lt (by omega)]

theorem land_one (n : Nat) : n &&& 1 = n % 2 := Nat.and_one_is_mod n

theorem xor_one_of_even {n : Nat} (h : n % 2 = 0) : n ^^^ 1 = n + 1 := by
  apply Nat.eq_of_testBit_eq
  intro i
  cases i with
  | zero =>
    rw [Nat.testBit_xor, Nat.testBit_zero, Nat.testBit_zero, Nat.testBit_zero]
    have h1 : n % 2 = 0 := h
    have h2 : (n + 1) % 2 = 1 := by omega
    simp [h1, h2]
  | succ j =>
    rw [Nat.testBit_xor, Nat.testBit_succ, Nat.testBit_succ, Nat.testBit_succ]
    have h1 : (n + 1) / 2 = n / 2 := by omega
    have h2 : (1 : Nat) / 2 = 0 := by decide
    rw [h1, h2]
    simp

theorem xor_one_xor_one (n : Nat) : n ^^^ 1 ^^^ 1 = n := by
  rw [Nat.xor_assoc, Nat.xor_self, Nat.xor_zero]

theorem xor_one_succ_of_even {n : Nat} (h : n % 2 = 0) : (n + 1) ^^^ 1 = n := by
  rw [← xor_one_of_even h, xor_one_xor_one]

theorem land_mask_even (x : Nat) : (x &&& (W - 8)) % 2 = 0 := by
  rw [← land_one, Nat.land_assoc]
  have h8 : (W - 8) &&& 1 = 0 := by decide
  rw [h8, Nat.and_zero]

theorem land_mask_lt {x : Nat} (hx : x < W) : x &&& (W - 8) < W := by
  exact lt_of_le_of_lt (Nat.and_le_left) hx

theorem readW_writeW_same (m : Mem) (a v : Nat) : readW (writeW m a v) a = v % W := by
  unfold readW writeW
  simp

theorem readW_writeW_ne (m : Mem) {a b : Nat} (v : Nat) (h : b ≠ a) :
    readW (writeW m a v) b = readW m b := by
  unfold readW writeW
  simp [h]

end Helpers

namespace Imp

theorem roundup_even (n : Nat) : roundup n % 2 = 0 := land_mask_even _

theorem roundup_lt (n : Nat) : roundup n < W := land_mask_lt (wrap_lt _)

theorem tiles_le {m : Mem} : ∀ {bs : List (Nat × Bool)} {addr stop : Nat},
    tiles m addr stop bs = true → addr ≤ stop := by
  intro bs
  induction bs with
  | nil => intro addr stop h; simp [tiles] at h; omega
  | cons pa bs ih =>
    intro addr stop h
    simp only [tiles, Bool.and_eq_true] at h
    have := ih h.2
    omega

theorem tiles_length {m : Mem} : ∀ {bs : List (Nat × Bool)} {addr stop : Nat},
    tiles m addr stop bs = true → addr + 8 * bs.length ≤ stop := by
  intro bs
  induction bs with
  | nil => intro addr stop h; simp [tiles] at h; simp only [List.length_nil]; omega
  | cons pa bs ih =>
    intro addr stop h
    simp only [tiles, Bool.and_eq_true] at h
    have := ih h.2
    simp only [List.length_cons]
    omega

end Imp

namespace Exp

theorem roundupE_even (n : Nat) : roundup n % 2 = 0 := land_mask_even _

theorem roundupE_lt (n : Nat) : roundup n < W := land_mask_lt (wrap_lt _)

theorem sumFree_cons (m : Mem) (a : Nat) (ns : List Nat) :
    sumFree m (a :: ns) = 16 + readW m a + sumFree m ns := rfl

theorem sumFree_length_le {m : Mem} : ∀ (ns : List Nat), 16 * ns.length ≤ sumFree m ns := by
  intro ns
  induction ns with
  | nil => simp [sumFree]
  | cons a ns ih =>
    rw [sumFree_cons]
    simp only [List.length_cons]
    omega

end Exp

namespace Imp

/-- First-fit scan specification for the implicit variant: on a tiled
region the scan either reports no fit with the state untouched, or stops
at the first fitting free block, marks it allocated and accounts `8 + v`
bytes, where `v` is the rounded request after a split and the block's own
payload otherwise. -/
theorem mallocLoop_spec (MAXR r : Nat) (s : IState)
    (hrM : r ≤ MAXR) (hrW : r < W) (hre : r % 2 = 0) (hW : s.heapSize < W) :
    ∀ (bs : List (Nat × Bool)) (i fuel : Nat),
    tiles s.mem (s.heapStart + i) (s.heapStart + s.heapSize) bs = true →
    bs.length < fuel →
    ((∀ pa ∈ bs, pa.2 = true ∨ pa.1 < r) → mallocLoop MAXR r s i fuel = some (none, s)) ∧
    ((∃ pa ∈ bs, pa.2 = false ∧ r ≤ pa.1) →
      ∃ hAddr v s', mallocLoop MAXR r s i fuel = some (some (hAddr + 8), s') ∧
        v % 2 = 0 ∧ readW s'.mem hAddr = v ^^^ 1 ∧
        s'.sizeUsed = wrap (s.sizeUsed + (8 + v)) ∧ 8 + v ≤ s.heapSize ∧
        (v = r ∨ (v, false) ∈ bs) ∧
        s'.heapStart = s.heapStart ∧ s'.heapSize = s.heapSize) := by
  intro bs
  induction bs with
  | nil =>
    intro i fuel ht hfuel
    have hi : s.heapStart + i = s.heapStart + s.heapSize := by
      simpa [tiles] using ht
    have hieq : i = s.heapSize := by omega
    obtain ⟨f, rfl⟩ : ∃ f, fuel = f + 1 := ⟨fuel - 1, by omega⟩
    constructor
    · intro _
      simp [mallocLoop, hieq]
    · intro hfit
      simp at hfit
  | cons pa bs ih =>
    intro i fuel ht hfuel
    obtain ⟨p, a⟩ := pa
    simp only [tiles, Bool.and_eq_true, beq_iff_eq] at ht
    obtain ⟨⟨hhead, hp8⟩, htl⟩ := ht
    have hstop := tiles_le htl
    have hip : i + (8 + p) ≤ s.heapSize := by omega
    have hiW : i < s.heapSize := by omega
    have hpW : p < W := by omega
    obtain ⟨f, rfl⟩ : ∃ f, fuel = f + 1 := ⟨fuel - 1, by omega⟩
    have hfuel' : bs.length < f := by
      simp only [List.length_cons] at hfuel; omega
    have harg : wrap (wrap (i + p) + 8) = i + (8 + p) := by
      have h1 : wrap (i + p) = i + p := wrap_eq_of_lt (by omega)
      rw [h1, wrap_eq_of_lt (by omega)]; omega
    have htl' : tiles s.mem (s.heapStart + (i + (8 + p))) (s.heapStart + s.heapSize) bs = true := by
      have hassoc : s.heapStart + (i + (8 + p)) = s.heapStart + i + (8 + p) := by omega
      rw [hassoc]; exact htl
    have ihspec := ih (i + (8 + p)) f htl' hfuel'
    cases a with
    | true =>
      have hhead' : readW s.mem (s.heapStart + i) = p + 1 := by simpa using hhead
      have hl1 : (p + 1) &&& 1 = 1 := by rw [land_one]; omega
      have hx : (p + 1) ^^^ 1 = p := xor_one_succ_of_even (by omega)
      have hstep : mallocLoop MAXR r s i (f + 1) = mallocLoop MAXR r s (i + (8 + p)) f := by
        simp only [mallocLoop, hhead', hl1, hx, if_pos hiW]
        rw [if_neg (by simp), if_pos trivial, harg]
      rw [hstep]
      constructor
      · intro hno
        exact ihspec.1 (fun pa hpa => hno pa (List.mem_cons_of_mem _ hpa))
      · intro hfit
        obtain ⟨pa, hpa, hfa, hfr⟩ := hfit
        rcases List.mem_cons.mp hpa with heq | htail
        · rw [heq] at hfa; simp at hfa
        · obtain ⟨hAddr, v, s', h1, h2, h3, h4, h5, h6, h7, h8⟩ :=
            ihspec.2 ⟨pa, htail, hfa, hfr⟩
          exact ⟨hAddr, v, s', h1, h2, h3, h4, h5,
            h6.imp (fun h => h) (fun h => List.mem_cons_of_mem _ h), h7, h8⟩
    | false =>
      have hhead' : readW s.mem (s.heapStart + i) = p := by simpa using hhead
      have hl0 : p &&& 1 = 0 := by rw [land_one]; omega
      by_cases hrp : r ≤ p
      · -- fitting free block at the head: the scan succeeds here
        have hcond : p &&& 1 = 0 ∧ r ≤ MAXR ∧ r ≤ p := ⟨hl0, hrM, hrp⟩
        have hsub : sub64 p r = p - r := sub64_eq_sub hrp hpW
        have hw8p : wrap (8 + p) = 8 + p := wrap_eq_of_lt (by omega)
        have hrmod : r % W = r := Nat.mod_eq_of_lt hrW
        have hWe : W % 2 = 0 := by decide
        constructor
        · intro hno
          have := hno (p, false) (List.mem_cons_self _ _)
          simp at this
          omega
        · intro _
          by_cases hsp : 16 ≤ p - r
          · -- split path: the block is trimmed to the rounded request
            have hw8r : wrap (r + 8) = r + 8 := wrap_eq_of_lt (by omega)
            have hsub2 : sub64 p (r + 8) = p - (r + 8) := sub64_eq_sub (by omega) hpW
            have hwur : wrap (8 + r) = 8 + r := wrap_eq_of_lt (by omega)
            have hr1 : (r ^^^ 1) % W = r ^^^ 1 := by
              rw [xor_one_of_even hre]; exact Nat.mod_eq_of_lt (by omega)
            have hstep : mallocLoop MAXR r s i (f + 1) =
                some (some (s.heapStart + i + 8),
                  { s with
                    mem := writeW (writeW (writeW s.mem (s.heapStart + i + (8 + r)) (p - (r + 8)))
                      (s.heapStart + i) r) (s.heapStart + i) (r ^^^ 1)
                    sizeUsed := wrap (s.sizeUsed + (8 + r)) }) := by
              simp only [mallocLoop, splitFunc, hhead', if_pos hiW, if_pos hcond, hsub, hw8r,
                hsub2, hwur, if_pos hsp, readW_writeW_same, hrmod]
            refine ⟨s.heapStart + i, r, _, hstep, hre, ?_, rfl, by omega, Or.inl rfl, rfl, rfl⟩
            rw [readW_writeW_same]
            exact hr1
          · -- no split: the whole block is handed out
            have hps : (p ^^^ 1) % W = p ^^^ 1 := by
              rw [xor_one_of_even (by omega)]; exact Nat.mod_eq_of_lt (by omega)
            have hstep : mallocLoop MAXR r s i (f + 1) =
                some (some (s.heapStart + i + 8),
                  { s with
                    mem := writeW s.mem (s.heapStart + i) (p ^^^ 1)
                    sizeUsed := wrap (s.sizeUsed + (8 + p)) }) := by
              simp only [mallocLoop, splitFunc, hhead', if_pos hiW, if_pos hcond, hsub,
                if_neg hsp, hw8p]
            refine ⟨s.heapStart + i, p, _, hstep, by omega, ?_, rfl, by omega,
              Or.inr (List.mem_cons_self _ _), rfl, rfl⟩
            rw [readW_writeW_same]
            exact hps
      · -- free but too small: skip
        have hstep : mallocLoop MAXR r s i (f + 1) = mallocLoop MAXR r s (i + (8 + p)) f := by
          simp only [mallocLoop, hhead', hl0, if_pos hiW]
          rw [if_neg (by simp [hrp])]
          simp only [if_neg (by decide : ¬(0 : Nat) = 1)]
          rw [harg]
        rw [hstep]
        constructor
        · intro hno
          exact ihspec.1 (fun pa hpa => hno pa (List.mem_cons_of_mem _ hpa))
        · intro hfit
          obtain ⟨pa, hpa, hfa, hfr⟩ := hfit
          rcases List.mem_cons.mp hpa with heq | htail
          · rw [heq] at hfr; exact absurd hfr hrp
          · obtain ⟨hAddr, v, s', h1, h2, h3, h4, h5, h6, h7, h8⟩ :=
              ihspec.2 ⟨pa, htail, hfa, hfr⟩
            exact ⟨hAddr, v, s', h1, h2, h3, h4, h5,
              h6.imp (fun h => h) (fun h => List.mem_cons_of_mem _ h), h7, h8⟩

end Imp

namespace Imp

/-- Realloc scan specification, in-place case: when the old block's
payload exceeds `new_size`, the scan returns `old_ptr` with the state
untouched as soon as it meets the first fitting free block. -/
theorem reallocLoop_old_spec (MAXR r new_size old_ptr : Nat) (s : IState)
    (hrM : r ≤ MAXR) (hW : s.heapSize < W)
    (hold : new_size < readW s.mem (old_ptr - 8) ^^^ 1) :
    ∀ (bs : List (Nat × Bool)) (i fuel : Nat),
    tiles s.mem (s.heapStart + i) (s.heapStart + s.heapSize) bs = true →
    bs.length < fuel →
    (∃ pa ∈ bs, pa.2 = false ∧ r ≤ pa.1) →
    reallocLoop MAXR r new_size old_ptr s i fuel = some (some old_ptr, s) := by
  intro bs
  induction bs with
  | nil =>
    intro i fuel ht hfuel hfit
    simp at hfit
  | cons pa bs ih =>
    intro i fuel ht hfuel hfit
    obtain ⟨p, a⟩ := pa
    simp only [tiles, Bool.and_eq_true, beq_iff_eq] at ht
    obtain ⟨⟨hhead, hp8⟩, htl⟩ := ht
    have hstop := tiles_le htl
    have hip : i + (8 + p) ≤ s.heapSize := by omega
    have hiW : i < s.heapSize := by omega
    obtain ⟨f, rfl⟩ : ∃ f, fuel = f + 1 := ⟨fuel - 1, by omega⟩
    have hfuel' : bs.length < f := by
      simp only [List.length_cons] at hfuel; omega
    have harg : wrap (wrap (i + p) + 8) = i + (8 + p) := by
      have h1 : wrap (i + p) = i + p := wrap_eq_of_lt (by omega)
      rw [h1, wrap_eq_of_lt (by omega)]; omega
    have htl' : tiles s.mem (s.heapStart + (i + (8 + p))) (s.heapStart + s.heapSize) bs = true := by
      have hassoc : s.heapStart + (i + (8 + p)) = s.heapStart + i + (8 + p) := by omega
      rw [hassoc]; exact htl
    cases a with
    | true =>
      have hhead' : readW s.mem (s.heapStart + i) = p + 1 := by simpa using hhead
      have hl1 : (p + 1) &&& 1 = 1 := by rw [land_one]; omega
      have hx : (p + 1) ^^^ 1 = p := xor_one_succ_of_even (by omega)
      have hstep : reallocLoop MAXR r new_size old_ptr s i (f + 1) =
          reallocLoop MAXR r new_size old_ptr s (i + (8 + p)) f := by
        simp only [reallocLoop, hhead', hl1, hx, if_pos hiW]
        rw [if_neg (by simp), if_pos trivial, harg]
      rw [hstep]
      refine ih (i + (8 + p)) f htl' hfuel' ?_
      obtain ⟨pa, hpa, hfa, hfr⟩ := hfit
      rcases List.mem_cons.mp hpa with heq | htail
      · rw [heq] at hfa; simp at hfa
      · exact ⟨pa, htail, hfa, hfr⟩
    | false =>
      have hhead' : readW s.mem (s.heapStart + i) = p := by simpa using hhead
      have hl0 : p &&& 1 = 0 := by rw [land_one]; omega
      by_cases hrp : r ≤ p
      · have hcond : p &&& 1 = 0 ∧ r ≤ MAXR ∧ r ≤ p := ⟨hl0, hrM, hrp⟩
        simp only [reallocLoop, hhead', if_pos hiW, if_pos hcond, if_pos hold]
      · have hstep : reallocLoop MAXR r new_size old_ptr s i (f + 1) =
            reallocLoop MAXR r new_size old_ptr s (i + (8 + p)) f := by
          simp only [reallocLoop, hhead', hl0, if_pos hiW]
          rw [if_neg (by simp [hrp])]
          simp only [if_neg (by decide : ¬(0 : Nat) = 1)]
          rw [harg]
        rw [hstep]
        refine ih (i + (8 + p)) f htl' hfuel' ?_
        obtain ⟨pa, hpa, hfa, hfr⟩ := hfit
        rcases List.mem_cons.mp hpa with heq | htail
        · rw [heq] at hfr; exact absurd hfr hrp
        · exact ⟨pa, htail, hfa, hfr⟩

end Imp

namespace Exp

theorem splitFunc_used (m : Mem) (fe cf payload req : Nat) :
    (splitFunc m fe cf payload req).2.1 = wrap (16 + req) := by
  unfold splitFunc
  dsimp only
  split <;> rfl

theorem splitFunc_payload (m : Mem) (fe cf payload req : Nat) :
    (splitFunc m fe cf payload req).2.2.1 = req := by
  unfold splitFunc
  dsimp only
  split <;> rfl

theorem cantSplit_used (m : Mem) (fe cf payload : Nat) :
    (cantSplit m fe cf payload).2.1 = wrap (16 + payload) := by
  unfold cantSplit
  dsimp only
  split
  · rfl
  · split <;> rfl

theorem readW_writeStruct_fst (m : Mem) (a h p n : Nat) :
    readW (writeStruct m a h p n) a = h % W := by
  unfold writeStruct
  rw [readW_writeW_ne _ _ (by omega), readW_writeW_ne _ _ (by omega), readW_writeW_same]

/-- Free-list walk specification for the explicit variant: on a
well-formed free list whose footprints sum to `space`, the walk either
reports no fit with the state untouched, or stops at the first fitting
node, removes or splits it, marks it allocated, and moves `16 + v` bytes
from the free counter to the used counter, where `v` is the rounded
request after a split and the node's own payload otherwise. -/
theorem mallocLoopE_spec (MAXR r : Nat) (s : EState)
    (hrM : r ≤ MAXR) (hrW : r < W) (hre : r % 2 = 0)
    (hSF : s.sizeUsed + s.freeSpace ≤ s.heapSize) (hW : s.heapSize < W) :
    ∀ (ns : List Nat) (cur prevA space fuel : Nat),
    flistD s.mem cur prevA ns = true →
    space = sumFree s.mem ns →
    space ≤ s.freeSpace →
    ns.length < fuel →
    ((∀ a ∈ ns, readW s.mem a < r) → mallocLoop MAXR r s space cur fuel = some (none, s)) ∧
    ((∃ a ∈ ns, r ≤ readW s.mem a) →
      ∃ nd v s', nd ∈ ns ∧ mallocLoop MAXR r s space cur fuel = some (some (nd + 16), s') ∧
        v % 2 = 0 ∧ readW s'.mem nd = v ^^^ 1 ∧
        (v = r ∨ v = readW s.mem nd) ∧ 16 + v ≤ s.freeSpace ∧
        s'.sizeUsed = s.sizeUsed + (16 + v) ∧ s'.freeSpace = s.freeSpace - (16 + v) ∧
        s'.heapStart = s.heapStart ∧ s'.heapSize = s.heapSize) := by
  have hFW : s.freeSpace < W := by omega
  intro ns
  induction ns with
  | nil =>
    intro cur prevA space fuel hfl hsp hsF hfuel
    have hcur : cur = 0 := by simpa [flistD] using hfl
    have hsp0 : space = 0 := by simpa [sumFree] using hsp
    obtain ⟨f, rfl⟩ : ∃ f, fuel = f + 1 := ⟨fuel - 1, by omega⟩
    constructor
    · intro _
      simp [mallocLoop, hcur, hsp0]
    · intro hfit
      simp at hfit
  | cons a ns ih =>
    intro cur prevA space fuel hfl hsp hsF hfuel
    simp only [flistD, Bool.and_eq_true, beq_iff_eq, decide_eq_true_eq] at hfl
    obtain ⟨⟨⟨⟨hcur, hapos⟩, heven⟩, hprev⟩, htl⟩ := hfl
    rw [hcur]
    rw [sumFree_cons] at hsp
    have hhW : readW s.mem a < W := readW_lt _ _
    have hsum_le : 16 + readW s.mem a ≤ space := by omega
    have hspace0 : ¬space = 0 := by omega
    have hane : ¬a = 0 := by omega
    obtain ⟨f, rfl⟩ : ∃ f, fuel = f + 1 := ⟨fuel - 1, by omega⟩
    have hfuel' : ns.length < f := by
      simp only [List.length_cons] at hfuel; omega
    have hl0 : readW s.mem a &&& 1 = 0 := by rw [land_one]; omega
    by_cases hrh : r ≤ readW s.mem a
    · -- first fit at the head node
      have hcond : readW s.mem a &&& 1 = 0 ∧ r ≤ MAXR ∧ r ≤ readW s.mem a := ⟨hl0, hrM, hrh⟩
      have hsub : sub64 (readW s.mem a) r = readW s.mem a - r := sub64_eq_sub hrh hhW
      constructor
      · intro hno
        have := hno a (List.mem_cons_self _ _)
        omega
      · intro _
        by_cases hsp24 : 24 < readW s.mem a - r
        · -- split path
          have hu : (splitFunc s.mem s.freeEnd a (readW s.mem a) r).2.1 = 16 + r := by
            rw [splitFunc_used, wrap_eq_of_lt (by omega)]
          have hpl : (splitFunc s.mem s.freeEnd a (readW s.mem a) r).2.2.1 = r :=
            splitFunc_payload _ _ _ _ _
          have hrl : r &&& 1 = 0 := by rw [land_one]; omega
          have hstep : mallocLoop MAXR r s space a (f + 1) =
              some (some (a + 16),
                { s with
                  mem := writeStruct (splitFunc s.mem s.freeEnd a (readW s.mem a) r).1 a
                    (r ^^^ 1) (readW s.mem (a + 8)) (readW s.mem (a + 16))
                  sizeUsed := wrap (s.sizeUsed + (16 + r))
                  freeSpace := sub64 s.freeSpace (16 + r)
                  freeEnd := (splitFunc s.mem s.freeEnd a (readW s.mem a) r).2.2.2 }) := by
            simp only [mallocLoop, if_neg hspace0, if_neg hane, if_pos hcond, hsub,
              if_pos hsp24, hu, hpl, hrl, if_true]
          refine ⟨a, r, _, List.mem_cons_self _ _, hstep, hre, ?_, Or.inl rfl, by omega, ?_, ?_, rfl, rfl⟩
          · rw [readW_writeStruct_fst, xor_one_of_even hre, Nat.mod_eq_of_lt (by omega),
              ← xor_one_of_even hre]
          · exact wrap_eq_of_lt (by omega)
          · exact sub64_eq_sub (by omega) hFW
        · -- whole-block path
          have hu : (cantSplit s.mem s.freeEnd a (readW s.mem a)).2.1 = 16 + readW s.mem a := by
            rw [cantSplit_used, wrap_eq_of_lt (by omega)]
          have hstep : mallocLoop MAXR r s space a (f + 1) =
              some (some (a + 16),
                { s with
                  mem := writeStruct (cantSplit s.mem s.freeEnd a (readW s.mem a)).1 a
                    (readW s.mem a ^^^ 1) (readW s.mem (a + 8)) (readW s.mem (a + 16))
                  sizeUsed := wrap (s.sizeUsed + (16 + readW s.mem a))
                  freeSpace := sub64 s.freeSpace (16 + readW s.mem a)
                  freeEnd := (cantSplit s.mem s.freeEnd a (readW s.mem a)).2.2 }) := by
            simp only [mallocLoop, if_neg hspace0, if_neg hane, if_pos hcond, hsub,
              if_neg hsp24, hu, hl0, if_true]
            rw [if_pos (⟨trivial, hrM, hrh⟩ : True ∧ r ≤ MAXR ∧ r ≤ readW s.mem a)]
          refine ⟨a, readW s.mem a, _, List.mem_cons_self _ _, hstep, by omega, ?_,
            Or.inr rfl, by omega, ?_, ?_, rfl, rfl⟩
          · rw [readW_writeStruct_fst, xor_one_of_even (by omega), Nat.mod_eq_of_lt (by omega),
              ← xor_one_of_even (by omega)]
          · exact wrap_eq_of_lt (by omega)
          · exact sub64_eq_sub (by omega) hFW
    · -- head node too small: skip to the next node
      have harg : sub64 space (wrap (16 + readW s.mem a)) = sumFree s.mem ns := by
        rw [wrap_eq_of_lt (by omega), sub64_eq_sub hsum_le (by omega)]
        omega
      have hstep : mallocLoop MAXR r s space a (f + 1) =
          mallocLoop MAXR r s (sumFree s.mem ns) (readW s.mem (a + 16)) f := by
        simp only [mallocLoop, if_neg hspace0, if_neg hane]
        rw [if_neg (by rintro ⟨-, -, c⟩; exact hrh c), harg]
      rw [hstep]
      have ihspec := ih (readW s.mem (a + 16)) a (sumFree s.mem ns) f htl rfl (by omega) hfuel'
      constructor
      · intro hno
        exact ihspec.1 (fun b hb => hno b (List.mem_cons_of_mem _ hb))
      · intro hfit
        obtain ⟨b, hb, hfb⟩ := hfit
        rcases List.mem_cons.mp hb with heq | htail
        · rw [heq] at hfb; exact absurd hfb hrh
        · obtain ⟨nd, v, s', h0, h1, h2, h3, h4, h5, h6, h7, h8, h9⟩ :=
            ihspec.2 ⟨b, htail, hfb⟩
          exact ⟨nd, v, s', List.mem_cons_of_mem _ h0, h1, h2, h3, h4, h5, h6, h7, h8, h9⟩

end Exp

theorem sub64_lt (a b : Nat) : sub64 a b < W := Nat.mod_lt _ W_pos

namespace Imp

/-- Full characterization of `mymalloc` on a well-formed implicit heap:
the exact null condition, totality (with the state untouched on null), and
the shape of a successful allocation. -/
theorem mymalloc_spec (MAXR : Nat) (s : IState) (bs : List (Nat × Bool)) (req : Nat)
    (hrep : repIb s bs = true) :
    (mymalloc MAXR s req = some (none, s) ↔
      (req = 0 ∨ MAXR < roundup req ∨ s.heapSize < wrap (roundup req + s.sizeUsed) ∨
        ∀ pa ∈ bs, pa.2 = true ∨ pa.1 < roundup req)) ∧
    (mymalloc MAXR s req = some (none, s) ∨ ∃ ptr s', mymalloc MAXR s req = some (some ptr, s')) ∧
    (∀ ptr s', mymalloc MAXR s req = some (some ptr, s') →
      ∃ v, v % 2 = 0 ∧ 8 ≤ ptr ∧ readW s'.mem (ptr - 8) = v ^^^ 1 ∧
        s'.sizeUsed = wrap (s.sizeUsed + (8 + v)) ∧ 8 + v ≤ s.heapSize ∧
        (v = roundup req ∨ (v, false) ∈ bs) ∧
        s'.heapStart = s.heapStart ∧ s'.heapSize = s.heapSize) := by
  have hrep' := hrep
  simp only [repIb, Bool.and_eq_true, decide_eq_true_eq] at hrep'
  obtain ⟨⟨htiles, hused⟩, hW⟩ := hrep'
  by_cases h0 : req = 0
  · have hres : mymalloc MAXR s req = some (none, s) := by simp [mymalloc, h0]
    refine ⟨?_, Or.inl hres, ?_⟩
    · rw [hres]; simp [h0]
    · intro ptr s' heq
      rw [hres] at heq
      simp at heq
  · by_cases hg : MAXR < roundup req ∨ s.heapSize < wrap (roundup req + s.sizeUsed)
    · have hres : mymalloc MAXR s req = some (none, s) := by
        simp only [mymalloc, if_neg h0]
        rw [if_pos hg]
      refine ⟨?_, Or.inl hres, ?_⟩
      · rw [hres]
        simp only [eq_self_iff_true, true_iff]
        exact Or.inr (hg.elim Or.inl (fun b => Or.inr (Or.inl b)))
      · intro ptr s' heq
        rw [hres] at heq
        simp at heq
    · have hg1 : roundup req ≤ MAXR := by omega
      have hg2 : wrap (roundup req + s.sizeUsed) ≤ s.heapSize := by omega
      have hres : mymalloc MAXR s req = mallocLoop MAXR (roundup req) s 0 (s.heapSize / 8 + 1) := by
        simp only [mymalloc, if_neg h0]
        rw [if_neg hg]
      have htiles0 : tiles s.mem (s.heapStart + 0) (s.heapStart + s.heapSize) bs = true := by
        rw [Nat.add_zero]; exact htiles
      have hlen : bs.length < s.heapSize / 8 + 1 := by
        have := tiles_length htiles
        omega
      have hspec := mallocLoop_spec MAXR (roundup req) s hg1 (roundup_lt _) (roundup_even _)
        hW bs 0 (s.heapSize / 8 + 1) htiles0 hlen
      by_cases hfit : ∀ pa ∈ bs, pa.2 = true ∨ pa.1 < roundup req
      · have hloop := hspec.1 hfit
        rw [hloop] at hres
        refine ⟨?_, Or.inl hres, ?_⟩
        · rw [hres]
          simp only [eq_self_iff_true, true_iff]
          exact Or.inr (Or.inr (Or.inr hfit))
        · intro ptr s' heq
          rw [hres] at heq
          simp at heq
      · have hfit' : ∃ pa ∈ bs, pa.2 = false ∧ roundup req ≤ pa.1 := by
          push_neg at hfit
          obtain ⟨pa, hpa, hna⟩ := hfit
          exact ⟨pa, hpa, by simpa using hna.1, hna.2⟩
        obtain ⟨hAddr, v, s', h1, h2, h3, h4, h5, h6, h7, h8⟩ := hspec.2 hfit'
        rw [h1] at hres
        have hne : mymalloc MAXR s req ≠ some (none, s) := by
          rw [hres]; simp
        refine ⟨?_, Or.inr ⟨hAddr + 8, s', hres⟩, ?_⟩
        · constructor
          · intro hc; exact absurd hc hne
          · intro hc
            rcases hc with hc | hc | hc | hc
            · exact absurd hc h0
            · omega
            · omega
            · exact absurd hc hfit
        · intro ptr s2 heq
          rw [hres] at heq
          injection heq with heq'
          injection heq' with heqp heqs
          injection heqp with heqp'
          obtain rfl := heqs
          obtain rfl := heqp'
          refine ⟨v, h2, by omega, ?_, h4, h5, h6, h7, h8⟩
          simpa using h3

end Imp

namespace Exp

/-- Full characterization of `mymalloc` on a well-formed explicit heap:
the exact null condition (no free-list node large enough), totality with
the state untouched on null, and the shape of a successful allocation. -/
theorem mymallocE_spec (MAXR : Nat) (s : EState) (ns : List Nat) (req : Nat)
    (hrep : repEb s ns = true) :
    (mymalloc MAXR s req = some (none, s) ↔
      (req = 0 ∨ MAXR < roundup req ∨ s.heapSize < wrap (roundup req + s.sizeUsed) ∨
        ∀ a ∈ ns, readW s.mem a < roundup req)) ∧
    (mymalloc MAXR s req = some (none, s) ∨ ∃ ptr s', mymalloc MAXR s req = some (some ptr, s')) ∧
    (∀ ptr s', mymalloc MAXR s req = some (some ptr, s') →
      ∃ nd v, nd ∈ ns ∧ ptr = nd + 16 ∧ v % 2 = 0 ∧ readW s'.mem nd = v ^^^ 1 ∧
        (v = roundup req ∨ v = readW s.mem nd) ∧ 16 + v ≤ s.freeSpace ∧
        s'.sizeUsed = s.sizeUsed + (16 + v) ∧ s'.freeSpace = s.freeSpace - (16 + v) ∧
        s'.heapStart = s.heapStart ∧ s'.heapSize = s.heapSize) := by
  have hrep' := hrep
  simp only [repEb, Bool.and_eq_true, beq_iff_eq, decide_eq_true_eq] at hrep'
  obtain ⟨⟨⟨hfl, hfs⟩, hSF⟩, hW⟩ := hrep'
  by_cases h0 : req = 0
  · have hres : mymalloc MAXR s req = some (none, s) := by simp [mymalloc, h0]
    refine ⟨?_, Or.inl hres, ?_⟩
    · rw [hres]; simp [h0]
    · intro ptr s' heq
      rw [hres] at heq
      simp at heq
  · by_cases hg : MAXR < roundup req ∨ s.heapSize < wrap (roundup req + s.sizeUsed)
    · have hres : mymalloc MAXR s req = some (none, s) := by
        simp only [mymalloc, if_neg h0]
        rw [if_pos hg]
      refine ⟨?_, Or.inl hres, ?_⟩
      · rw [hres]
        simp only [eq_self_iff_true, true_iff]
        exact Or.inr (hg.elim Or.inl (fun b => Or.inr (Or.inl b)))
      · intro ptr s' heq
        rw [hres] at heq
        simp at heq
    · have hg1 : roundup req ≤ MAXR := by omega
      have hres : mymalloc MAXR s req =
          mallocLoop MAXR (roundup req) s s.freeSpace s.freeEnd (s.freeSpace + 1) := by
        simp only [mymalloc, if_neg h0]
        rw [if_neg hg]
      have hlen : ns.length < s.freeSpace + 1 := by
        have h16 := sumFree_length_le (m := s.mem) ns
        omega
      have hspec := mallocLoopE_spec MAXR (roundup req) s hg1 (roundupE_lt _) (roundupE_even _)
        hSF hW ns s.freeEnd 0 s.freeSpace (s.freeSpace + 1) hfl hfs (le_refl _) hlen
      by_cases hfit : ∀ a ∈ ns, readW s.mem a < roundup req
      · have hloop := hspec.1 hfit
        rw [hloop] at hres
        refine ⟨?_, Or.inl hres, ?_⟩
        · rw [hres]
          simp only [eq_self_iff_true, true_iff]
          exact Or.inr (Or.inr (Or.inr hfit))
        · intro ptr s' heq
          rw [hres] at heq
          simp at heq
      · have hfit' : ∃ a ∈ ns, roundup req ≤ readW s.mem a := by
          push_neg at hfit
          obtain ⟨a, ha, hna⟩ := hfit
          exact ⟨a, ha, hna⟩
        obtain ⟨nd, v, s', h0m, h1, h2, h3, h4, h5, h6, h7, h8, h9⟩ := hspec.2 hfit'
        rw [h1] at hres
        have hne : mymalloc MAXR s req ≠ some (none, s) := by
          rw [hres]; simp
        refine ⟨?_, Or.inr ⟨nd + 16, s', hres⟩, ?_⟩
        · constructor
          · intro hc; exact absurd hc hne
          · intro hc
            rcases hc with hc | hc | hc | hc
            · exact absurd hc h0
            · omega
            · omega
            · obtain ⟨a, ha, hra⟩ := hfit'
              have := hc a ha
              omega
        · intro ptr s2 heq
          rw [hres] at heq
          injection heq with heq'
          injection heq' with heqp heqs
          injection heqp with heqp'
          obtain rfl := heqs
          obtain rfl := heqp'
          exact ⟨nd, v, h0m, rfl, h2, h3, h4, h5, h6, h7, h8, h9⟩

end Exp

/-- Payload size recorded by the explicit init for the region-spanning
free block (header word at the region base). -/
def initHeaderE (m0 : Mem) (b n : Nat) : Option Nat :=
  (Exp.myinit m0 b n).map fun s => readW s.mem b

/-- A 16-byte region holding one allocated 8-byte-payload block; used to
exercise the zero-size realloc paths. -/
def w7i : Imp.IState :=
  { mem := fun a => if a = 8 then 9 else 0, heapStart := 8, heapSize := 16, sizeUsed := 16 }

/-- A 32-byte explicit region holding one allocated 16-byte-payload block. -/
def w7e : Exp.EState :=
  { mem := fun a => if a = 8 then 17 else 0, heapStart := 8, heapSize := 32,
    sizeUsed := 32, freeEnd := 0, freeSpace := 0 }

/-- Claim C10: in both variants `reallocate(null, 0)` returns null with the
state unchanged: the zero-size special case requires a non-null pointer, so
the call reaches `allocate(0)` (or the size gate), both of which reject. -/
theorem claim_C10 :
    (∀ (MAXR : Nat) (s : Imp.IState), Imp.myrealloc MAXR s 0 0 = some (none, s)) ∧
    (∀ (MAXR : Nat) (s : Exp.EState), Exp.myrealloc MAXR s 0 0 = some (none, s)) := by
  constructor
  · intro MAXR s
    have hr0 : Imp.roundup 0 = 0 := by decide
    simp only [Imp.myrealloc, hr0]
    rw [if_neg (by simp)]
    by_cases hg : MAXR < 0 ∨ s.heapSize < wrap (0 + s.sizeUsed)
    · rw [if_pos hg]
    · rw [if_neg hg, if_pos trivial]
      simp [Imp.mymalloc]
  · intro MAXR s
    have hr0 : Exp.roundup 0 = 0 := by decide
    simp only [Exp.myrealloc, hr0]
    rw [if_neg (by simp)]
    by_cases hg : MAXR < 0 ∨ s.heapSize < wrap (0 + s.sizeUsed)
    · rw [if_pos hg]
    · rw [if_neg hg, if_pos trivial]
      simp [Exp.mymalloc]

/-- Claim C7: in both variants `reallocate(old_ptr, 0)` with a non-null
pointer frees it and returns the same (now dangling) pointer, not null. -/
theorem claim_C7 :
    (∀ (MAXR : Nat) (s : Imp.IState) (p : Nat), p ≠ 0 →
      Imp.myrealloc MAXR s p 0 = some (some p, Imp.myfree s p)) ∧
    (∀ (MAXR : Nat) (s : Exp.EState) (p : Nat), p ≠ 0 →
      Exp.myrealloc MAXR s p 0 = some (some p, Exp.myfree s p)) := by
  constructor
  · intro MAXR s p hp
    simp only [Imp.myrealloc]
    rw [if_pos ⟨trivial, hp⟩]
  · intro MAXR s p hp
    simp only [Exp.myrealloc]
    rw [if_pos ⟨trivial, hp⟩]

/-- Witness for C7 on concrete one-block heaps. -/
theorem claim_C7_witness :
    ((16 : Nat) ≠ 0 ∧ Imp.myrealloc 100 w7i 16 0 = some (some 16, Imp.myfree w7i 16)) ∧
    ((24 : Nat) ≠ 0 ∧ Exp.myrealloc 100 w7e 24 0 = some (some 24, Exp.myfree w7e 24)) :=
  ⟨⟨by decide, claim_C7.1 100 w7i 16 (by decide)⟩,
   ⟨by decide, claim_C7.2 100 w7e 24 (by decide)⟩⟩

/-- Claim C1 counterexample: explicit init on a 64-byte region at base 8
records a payload of 48 = 64 - 16 in the single free block's header, not
64 - 24 as the claimed 24-byte header width would give. -/
theorem claim_C1_counterexample :
    initHeaderE zeroMem 8 64 = some 48 ∧ (48 : Nat) ≠ 64 - 24 :=
  ⟨by decide, by decide⟩

/-- Claim C1 (amended): the explicit layout reserves 16 bytes of header
before each payload (the 24-byte struct's third word overlays the first
payload word): init records `length - 16` and every successful allocation
returns the selected free-list node's base address plus 16. -/
theorem claim_C1_amended :
    (∀ (m0 : Mem) (b n : Nat) (s : Exp.EState), Exp.myinit m0 b n = some s →
      readW s.mem b = sub64 n 16) ∧
    (∀ (MAXR : Nat) (s : Exp.EState) (ns : List Nat) (req ptr : Nat) (s' : Exp.EState),
      Exp.repEb s ns = true → Exp.mymalloc MAXR s req = some (some ptr, s') →
      ∃ nd, nd ∈ ns ∧ ptr = nd + 16) := by
  constructor
  · intro m0 b n s heq
    unfold Exp.myinit at heq
    by_cases hb : b = 0
    · rw [if_pos hb] at heq
      simp at heq
    · rw [if_neg hb] at heq
      injection heq with heq'
      rw [← heq']
      dsimp only
      rw [Exp.readW_writeStruct_fst]
      exact Nat.mod_eq_of_lt (sub64_lt _ _)
  · intro MAXR s ns req ptr s' hrep heq
    obtain ⟨nd, v, h0, h1, _⟩ := (Exp.mymallocE_spec MAXR s ns req hrep).2.2 ptr s' heq
    exact ⟨nd, h0, h1⟩

/-- A 64-byte explicit region with one region-spanning free block. -/
def w1e : Exp.EState :=
  { mem := fun a => if a = 8 then 48 else 0, heapStart := 8, heapSize := 64,
    sizeUsed := 0, freeEnd := 8, freeSpace := 64 }

/-- Witness for the amended C1 on concrete runs of init and allocate. -/
theorem claim_C1_witness :
    (∃ s, Exp.myinit zeroMem 8 64 = some s ∧ readW s.mem 8 = sub64 64 16) ∧
    (Exp.repEb w1e [8] = true ∧
      ∃ s', Exp.mymalloc 1024 w1e 16 = some (some 24, s') ∧ ∃ nd, nd ∈ [8] ∧ (24 : Nat) = nd + 16) := by
  constructor
  · exact ⟨_, rfl, claim_C1_amended.1 zeroMem 8 64 _ rfl⟩
  · have hrep : Exp.repEb w1e [8] = true := by decide
    obtain ⟨s', heq⟩ : ∃ s', Exp.mymalloc 1024 w1e 16 = some (some 24, s') := ⟨_, rfl⟩
    exact ⟨hrep, s', heq, claim_C1_amended.2 1024 w1e [8] 16 24 s' hrep heq⟩

/-- A 64-byte explicit region with two allocated 16-byte-payload blocks at
8 and 40; freeing the first meets an in-bounds allocated right neighbour. -/
def c2e : Exp.EState :=
  { mem := fun a => if a = 8 then 17 else if a = 40 then 17 else 0,
    heapStart := 8, heapSize := 64, sizeUsed := 64, freeEnd := 0, freeSpace := 0 }

/-- Claim C2: evaluating the code at the failing input.  Freeing block 8
(payload pointer 24) whose in-bounds right neighbour at 40 is allocated
updates the counters but leaves the header word allocated (17, flag still
set) and never touches the free list (`freeEnd` stays 0), instead of the
LIFO insertion the specification describes. -/
theorem claim_C2_bug :
    readW (Exp.myfree c2e 24).mem 8 = 17 ∧ (17 : Nat) % 2 = 1 ∧
    (Exp.myfree c2e 24).freeEnd = 0 ∧ (0 : Nat) ≠ 8 ∧
    (Exp.myfree c2e 24).sizeUsed = 32 ∧ (Exp.myfree c2e 24).freeSpace = 32 :=
  ⟨by decide, by decide, by decide, by decide, by decide, by decide⟩

/-- A 64-byte explicit region with two free 16-byte-payload blocks of
which only the first is on the free list: the walk's sum (32) differs
from the free counter (64). -/
def c3e : Exp.EState :=
  { mem := fun a => if a = 8 then 16 else if a = 40 then 16 else 0,
    heapStart := 8, heapSize := 64, sizeUsed := 0, freeEnd := 8, freeSpace := 64 }

/-- Claim C3 counterexample: on `c3e` the free-list walk's footprint sum
is 32 while `freeSpace` is 64, yet the validator returns true — the sum is
computed but never compared against the counter. -/
theorem claim_C3_counterexample :
    Exp.validate_heap c3e 5 5 = some true ∧
    Exp.vwalk c3e.mem c3e.freeEnd 0 5 = some (some 32) ∧
    c3e.freeSpace = 64 ∧ (32 : Nat) ≠ 64 :=
  ⟨by decide, by decide, by decide, by decide⟩

/-- Claim C3 (amended): the validator walks the free list from `freeEnd`
and returns false when a visited node carries the allocated flag; it
accumulates the walk's footprint sum but never compares it with
`freeSpace` — the checks that remain are `sizeUsed ≤ heapSize`, the block
sweep's `frees + used = heapSize`, and `freeSpace + sizeUsed = heapSize`. -/
theorem claim_C3_amended :
    ∀ (s : Exp.EState) (fuel1 fuel2 : Nat) (b : Bool),
      Exp.validate_heap s fuel1 fuel2 = some b →
      (b = true ↔ (s.sizeUsed ≤ s.heapSize ∧
        (∃ u f, Exp.vsweep s 0 0 0 fuel1 = some (u, f) ∧ wrap (f + u) = s.heapSize) ∧
        (∃ fr, Exp.vwalk s.mem s.freeEnd 0 fuel2 = some (some fr)) ∧
        wrap (s.freeSpace + s.sizeUsed) = s.heapSize)) := by
  intro s fuel1 fuel2 b heq
  unfold Exp.validate_heap at heq
  by_cases h1 : s.heapSize < s.sizeUsed
  · rw [if_pos h1] at heq
    injection heq with hb
    rw [← hb]
    simp only [Bool.false_eq_true, false_iff]
    rintro ⟨hle, -, -, -⟩
    omega
  · rw [if_neg h1] at heq
    cases hsw : Exp.vsweep s 0 0 0 fuel1 with
    | none =>
      rw [hsw] at heq
      simp at heq
    | some uf =>
      obtain ⟨u0, f0⟩ := uf
      rw [hsw] at heq
      cases hw : Exp.vwalk s.mem s.freeEnd 0 fuel2 with
      | none =>
        rw [hw] at heq
        simp at heq
      | some w =>
        rw [hw] at heq
        cases w with
        | none =>
          simp only at heq
          injection heq with hb
          rw [← hb]
          simp only [Bool.false_eq_true, false_iff]
          rintro ⟨-, -, ⟨fr, hfr⟩, -⟩
          simp at hfr
        | some fr =>
          simp only at heq
          by_cases h2 : wrap (f0 + u0) ≠ s.heapSize
          · rw [if_pos h2] at heq
            injection heq with hb
            rw [← hb]
            simp only [Bool.false_eq_true, false_iff]
            rintro ⟨-, ⟨u, f, hufeq, hsum⟩, -, -⟩
            injection hufeq with huf
            have hu0 : u0 = u := congrArg Prod.fst huf
            have hf0 : f0 = f := congrArg Prod.snd huf
            rw [hu0, hf0] at h2
            exact h2 hsum
          · rw [if_neg h2] at heq
            by_cases h3 : wrap (s.freeSpace + s.sizeUsed) ≠ s.heapSize
            · rw [if_pos h3] at heq
              injection heq with hb
              rw [← hb]
              simp only [Bool.false_eq_true, false_iff]
              rintro ⟨-, -, -, hc⟩
              exact h3 hc
            · rw [if_neg h3] at heq
              injection heq with hb
              rw [← hb]
              simp only [true_iff]
              exact ⟨by omega, ⟨u0, f0, rfl, by omega⟩, ⟨fr, rfl⟩, by omega⟩

/-- Witness for the amended C3 on a concrete consistent heap. -/
theorem claim_C3_witness :
    Exp.validate_heap w1e 5 5 = some true ∧
    (true = true ↔ (w1e.sizeUsed ≤ w1e.heapSize ∧
      (∃ u f, Exp.vsweep w1e 0 0 0 5 = some (u, f) ∧ wrap (f + u) = w1e.heapSize) ∧
      (∃ fr, Exp.vwalk w1e.mem w1e.freeEnd 0 5 = some (some fr)) ∧
      wrap (w1e.freeSpace + w1e.sizeUsed) = w1e.heapSize)) :=
  ⟨by decide, claim_C3_amended w1e 5 5 true (by decide)⟩

/-- Pointer component of the implicit reallocate's result. -/
def reallocPtrI (MAXR : Nat) (s : Imp.IState) (old nsz : Nat) : Option (Option Nat) :=
  (Imp.myrealloc MAXR s old nsz).map Prod.fst

/-- A 40-byte implicit region: allocated block (payload 8) at 8, free
block (payload 16) at 24. -/
def c4i : Imp.IState :=
  { mem := fun a => if a = 8 then 9 else if a = 24 then 16 else 0,
    heapStart := 8, heapSize := 40, sizeUsed := 16 }

/-- Claim C4 counterexample: on `c4i`, `reallocate(16, 8)` has an old
payload of 8 that already satisfies the rounded request 8, yet the
implicit code compares `old_payload > new_size` (8 > 8 fails) and
relocates, returning the new pointer 32 instead of 16. -/
theorem claim_C4_counterexample :
    Imp.roundup 8 ≤ readW c4i.mem (16 - 8) ^^^ 1 ∧
    reallocPtrI 1024 c4i 16 8 = some (some 32) ∧ (32 : Nat) ≠ 16 :=
  ⟨by decide, by decide, by decide⟩

/-- Claim C4 (amended): provided the oversize gate passes first, the
explicit variant returns `old_ptr` unchanged whenever the rounded request
fits the old payload; the implicit variant returns `old_ptr` unchanged
only under the stricter `old_payload > new_size` comparison and only once
its scan has found a free block whose payload fits the rounded request. -/
theorem claim_C4_amended :
    (∀ (MAXR : Nat) (s : Exp.EState) (old nsz : Nat),
      nsz ≠ 0 → old ≠ 0 →
      ¬(MAXR < Exp.roundup nsz ∨ s.heapSize < wrap (Exp.roundup nsz + s.sizeUsed)) →
      Exp.roundup nsz ≤ readW s.mem (old - 16) ^^^ 1 →
      Exp.myrealloc MAXR s old nsz = some (some old, s)) ∧
    (∀ (MAXR : Nat) (s : Imp.IState) (bs : List (Nat × Bool)) (old nsz : Nat),
      Imp.repIb s bs = true → nsz ≠ 0 → old ≠ 0 →
      ¬(MAXR < Imp.roundup nsz ∨ s.heapSize < wrap (Imp.roundup nsz + s.sizeUsed)) →
      (∃ pa ∈ bs, pa.2 = false ∧ Imp.roundup nsz ≤ pa.1) →
      nsz < readW s.mem (old - 8) ^^^ 1 →
      Imp.myrealloc MAXR s old nsz = some (some old, s)) := by
  constructor
  · intro MAXR s old nsz hnsz hold hg hfitsl
    simp only [Exp.myrealloc]
    rw [if_neg (by rintro ⟨hc, -⟩; exact hnsz hc), if_neg hg, if_neg hold, if_pos hfitsl]
  · intro MAXR s bs old nsz hrep hnsz hold hg hfit hipc
    have hrep' := hrep
    simp only [Imp.repIb, Bool.and_eq_true, decide_eq_true_eq] at hrep'
    obtain ⟨⟨htiles, hused⟩, hW⟩ := hrep'
    simp only [Imp.myrealloc]
    rw [if_neg (by rintro ⟨hc, -⟩; exact hnsz hc), if_neg hg, if_neg hold]
    have htiles0 : Imp.tiles s.mem (s.heapStart + 0) (s.heapStart + s.heapSize) bs = true := by
      rw [Nat.add_zero]; exact htiles
    have hlen : bs.length < s.heapSize / 8 + 1 := by
      have := Imp.tiles_length htiles
      omega
    exact Imp.reallocLoop_old_spec MAXR (Imp.roundup nsz) nsz old s (by omega) hW hipc
      bs 0 (s.heapSize / 8 + 1) htiles0 hlen hfit

/-- A 64-byte explicit region: allocated block (payload 16) at 8, free
block (payload 16) at 40 on the free list. -/
def w4e : Exp.EState :=
  { mem := fun a => if a = 8 then 17 else if a = 40 then 16 else 0,
    heapStart := 8, heapSize := 64, sizeUsed := 32, freeEnd := 40, freeSpace := 32 }

/-- Witness for the amended C4 on concrete in-place reallocations. -/
theorem claim_C4_witness :
    ((16 : Nat) ≠ 0 ∧ Exp.roundup 16 ≤ readW w4e.mem (24 - 16) ^^^ 1 ∧
      Exp.myrealloc 1024 w4e 24 16 = some (some 24, w4e)) ∧
    (Imp.repIb c4i [(8, true), (16, false)] = true ∧ (4 : Nat) < readW c4i.mem (16 - 8) ^^^ 1 ∧
      Imp.myrealloc 1024 c4i 16 4 = some (some 16, c4i)) := by
  constructor
  · exact ⟨by decide, by decide,
      claim_C4_amended.1 1024 w4e 24 16 (by decide) (by decide) (by decide) (by decide)⟩
  · exact ⟨by decide, by decide,
      claim_C4_amended.2 1024 c4i [(8, true), (16, false)] 16 4 (by decide) (by decide)
        (by decide) (by decide) (by decide) (by decide)⟩

/-- Claim C5: in both variants `allocate(r)` returns null exactly when
`r = 0`, the rounded request exceeds `MAX_REQUEST_SIZE`, the rounded
request plus the used counter exceeds the region length, or no free block
(free-list node) has a payload of at least the rounded request; and on
every null return the state is unchanged. -/
theorem claim_C5 :
    (∀ (MAXR : Nat) (s : Imp.IState) (bs : List (Nat × Bool)) (r : Nat),
      Imp.repIb s bs = true → MAXR + s.heapSize < W →
      ∃ res s', Imp.mymalloc MAXR s r = some (res, s') ∧
        (res = none ↔ (r = 0 ∨ MAXR < Imp.roundup r ∨
          s.heapSize < Imp.roundup r + s.sizeUsed ∨
          ∀ pa ∈ bs, pa.2 = true ∨ pa.1 < Imp.roundup r)) ∧
        (res = none → s' = s)) ∧
    (∀ (MAXR : Nat) (s : Exp.EState) (ns : List Nat) (r : Nat),
      Exp.repEb s ns = true → MAXR + s.heapSize < W →
      ∃ res s', Exp.mymalloc MAXR s r = some (res, s') ∧
        (res = none ↔ (r = 0 ∨ MAXR < Exp.roundup r ∨
          s.heapSize < Exp.roundup r + s.sizeUsed ∨
          ∀ a ∈ ns, readW s.mem a < Exp.roundup r)) ∧
        (res = none → s' = s)) := by
  constructor
  · intro MAXR s bs r hrep hMW
    have hrep' := hrep
    simp only [Imp.repIb, Bool.and_eq_true, decide_eq_true_eq] at hrep'
    obtain ⟨⟨-, hused⟩, -⟩ := hrep'
    have spec := Imp.mymalloc_spec MAXR s bs r hrep
    have hconv : (r = 0 ∨ MAXR < Imp.roundup r ∨
        s.heapSize < wrap (Imp.roundup r + s.sizeUsed) ∨
        ∀ pa ∈ bs, pa.2 = true ∨ pa.1 < Imp.roundup r) ↔
        (r = 0 ∨ MAXR < Imp.roundup r ∨
        s.heapSize < Imp.roundup r + s.sizeUsed ∨
        ∀ pa ∈ bs, pa.2 = true ∨ pa.1 < Imp.roundup r) := by
      by_cases hM : MAXR < Imp.roundup r
      · constructor <;> intro _ <;> exact Or.inr (Or.inl hM)
      · have hw : wrap (Imp.roundup r + s.sizeUsed) = Imp.roundup r + s.sizeUsed :=
          wrap_eq_of_lt (by omega)
        rw [hw]
    rcases spec.2.1 with hnone | ⟨ptr, s', hsome⟩
    · exact ⟨none, s, hnone, ⟨fun _ => hconv.mp (spec.1.mp hnone), fun _ => rfl⟩, fun _ => rfl⟩
    · refine ⟨some ptr, s', hsome, ⟨?_, ?_⟩, ?_⟩
      · intro hc
        exact absurd hc (by simp)
      · intro hc
        have := spec.1.mpr (hconv.mpr hc)
        rw [hsome] at this
        simp at this
      · intro hc
        exact absurd hc (by simp)
  · intro MAXR s ns r hrep hMW
    have hrep' := hrep
    simp only [Exp.repEb, Bool.and_eq_true, beq_iff_eq, decide_eq_true_eq] at hrep'
    obtain ⟨⟨-, hSF⟩, -⟩ := hrep'
    have spec := Exp.mymallocE_spec MAXR s ns r hrep
    have hconv : (r = 0 ∨ MAXR < Exp.roundup r ∨
        s.heapSize < wrap (Exp.roundup r + s.sizeUsed) ∨
        ∀ a ∈ ns, readW s.mem a < Exp.roundup r) ↔
        (r = 0 ∨ MAXR < Exp.roundup r ∨
        s.heapSize < Exp.roundup r + s.sizeUsed ∨
        ∀ a ∈ ns, readW s.mem a < Exp.roundup r) := by
      by_cases hM : MAXR < Exp.roundup r
      · constructor <;> intro _ <;> exact Or.inr (Or.inl hM)
      · have hw : wrap (Exp.roundup r + s.sizeUsed) = Exp.roundup r + s.sizeUsed :=
          wrap_eq_of_lt (by omega)
        rw [hw]
    rcases spec.2.1 with hnone | ⟨ptr, s', hsome⟩
    · exact ⟨none, s, hnone, ⟨fun _ => hconv.mp (spec.1.mp hnone), fun _ => rfl⟩, fun _ => rfl⟩
    · refine ⟨some ptr, s', hsome, ⟨?_, ?_⟩, ?_⟩
      · intro hc
        exact absurd hc (by simp)
      · intro hc
        have := spec.1.mpr (hconv.mpr hc)
        rw [hsome] at this
        simp at this
      · intro hc
        exact absurd hc (by simp)

/-- A 32-byte implicit region: free block (payload 16) at 8, allocated
zero-payload block at 32. -/
def c5i : Imp.IState :=
  { mem := fun a => if a = 8 then 16 else if a = 32 then 1 else 0,
    heapStart := 8, heapSize := 32, sizeUsed := 8 }

/-- Witness for C5 on concrete heaps of both variants. -/
theorem claim_C5_witness :
    (Imp.repIb c5i [(16, false), (0, true)] = true ∧ 100 + c5i.heapSize < W ∧
      ∃ res s', Imp.mymalloc 100 c5i 8 = some (res, s') ∧
        (res = none ↔ ((8 : Nat) = 0 ∨ 100 < Imp.roundup 8 ∨
          c5i.heapSize < Imp.roundup 8 + c5i.sizeUsed ∨
          ∀ pa ∈ [((16 : Nat), false), ((0 : Nat), true)], pa.2 = true ∨ pa.1 < Imp.roundup 8)) ∧
        (res = none → s' = c5i)) ∧
    (Exp.repEb w1e [8] = true ∧ 1024 + w1e.heapSize < W ∧
      ∃ res s', Exp.mymalloc 1024 w1e 16 = some (res, s') ∧
        (res = none ↔ ((16 : Nat) = 0 ∨ 1024 < Exp.roundup 16 ∨
          w1e.heapSize < Exp.roundup 16 + w1e.sizeUsed ∨
          ∀ a ∈ [(8 : Nat)], readW w1e.mem a < Exp.roundup 16)) ∧
        (res = none → s' = w1e)) :=
  ⟨⟨by decide, by decide, claim_C5.1 100 c5i [(16, false), (0, true)] 8 (by decide) (by decide)⟩,
   ⟨by decide, by decide, claim_C5.2 1024 w1e [8] 16 (by decide) (by decide)⟩⟩

theorem land_mask_of_lt8 {x : Nat} (hx : x < 8) : x &&& (W - 8) = 0 := by
  interval_cases x <;> decide

/-- Result pointer and the word at address `a` after an implicit malloc. -/
def mallocProbeI (MAXR : Nat) (s : Imp.IState) (r a : Nat) : Option (Option Nat × Nat) :=
  (Imp.mymalloc MAXR s r).map fun x => (x.1, readW x.2.mem a)

/-- A 16-byte implicit region holding one free block of payload 8. -/
def c9i : Imp.IState :=
  { mem := fun a => if a = 8 then 8 else 0, heapStart := 8, heapSize := 16, sizeUsed := 0 }

/-- Claim C9 counterexample: `allocate(2^64 - 1)` on a heap whose only
free block has payload 8 succeeds (rounded request wraps to 0) but the
handed-out block's payload is 8, not zero: the header word becomes 9, and
9 XOR 1 = 8 ≠ 0. -/
theorem claim_C9_counterexample :
    2 ^ 64 - 8 < 2 ^ 64 - 1 ∧
    mallocProbeI 1024 c9i (2 ^ 64 - 1) 8 = some (some 16, 9) ∧ (9 : Nat) ^^^ 1 ≠ 0 :=
  ⟨by decide, by decide, by decide⟩

/-- Claim C9 (amended): for every request in the top seven values of
`size_t`, `roundup` wraps modulo `2^64` to 0 in both variants, so
`allocate(r)` passes both size checks on a well-formed heap and, whenever
a free block exists, returns a non-null pointer; the resulting block's
recorded payload is the rounded request 0 after a split but the selected
block's own payload otherwise, so it need not be zero. -/
theorem claim_C9_amended :
    (∀ r : Nat, W - 8 < r → r < W → Imp.roundup r = 0 ∧ Exp.roundup r = 0) ∧
    (∀ (MAXR : Nat) (s : Imp.IState) (bs : List (Nat × Bool)) (r : Nat),
      Imp.repIb s bs = true → (∃ pa ∈ bs, pa.2 = false) → W - 8 < r → r < W →
      ∃ ptr s', Imp.mymalloc MAXR s r = some (some ptr, s') ∧
        ∃ v, readW s'.mem (ptr - 8) = v ^^^ 1 ∧ (v = 0 ∨ (v, false) ∈ bs)) := by
  have hround : ∀ r : Nat, W - 8 < r → r < W → wrap (r + 8 - 1) < 8 := by
    intro r h1 h2
    unfold wrap W
    unfold W at h1 h2
    omega
  constructor
  · intro r h1 h2
    constructor
    · unfold Imp.roundup
      exact land_mask_of_lt8 (hround r h1 h2)
    · unfold Exp.roundup
      exact land_mask_of_lt8 (hround r h1 h2)
  · intro MAXR s bs r hrep hfree h1 h2
    have hr0 : Imp.roundup r = 0 := by
      unfold Imp.roundup
      exact land_mask_of_lt8 (hround r h1 h2)
    have hrep' := hrep
    simp only [Imp.repIb, Bool.and_eq_true, decide_eq_true_eq] at hrep'
    obtain ⟨⟨-, hused⟩, hW⟩ := hrep'
    have hrne : r ≠ 0 := by
      unfold W at h1
      omega
    have spec := Imp.mymalloc_spec MAXR s bs r hrep
    rcases spec.2.1 with hnone | ⟨ptr, s', hsome⟩
    · exfalso
      have hcond := spec.1.mp hnone
      rw [hr0] at hcond
      rcases hcond with hc | hc | hc | hc
      · exact hrne hc
      · omega
      · rw [Nat.zero_add, wrap_eq_of_lt (by omega)] at hc
        omega
      · obtain ⟨pa, hpa, hfa⟩ := hfree
        rcases hc pa hpa with ht | ht
        · rw [hfa] at ht
          exact absurd ht (by decide)
        · omega
    · obtain ⟨v, -, -, h3, -, -, h6, -, -⟩ := spec.2.2 ptr s' hsome
      rw [hr0] at h6
      exact ⟨ptr, s', hsome, v, h3, h6⟩

/-- Witness for the amended C9: the wrap fact at `2^64 - 3` and a concrete
top-of-range allocation. -/
theorem claim_C9_witness :
    (W - 8 < 2 ^ 64 - 3 ∧ (2 : Nat) ^ 64 - 3 < W ∧
      Imp.roundup (2 ^ 64 - 3) = 0 ∧ Exp.roundup (2 ^ 64 - 3) = 0) ∧
    (Imp.repIb c5i [(16, false), (0, true)] = true ∧
      ∃ ptr s', Imp.mymalloc 100 c5i (2 ^ 64 - 1) = some (some ptr, s') ∧
        ∃ v, readW s'.mem (ptr - 8) = v ^^^ 1 ∧ (v = 0 ∨ (v, false) ∈ [((16 : Nat), false), ((0 : Nat), true)])) :=
  ⟨⟨by decide, by decide,
    (claim_C9_amended.1 (2 ^ 64 - 3) (by decide) (by decide)).1,
    (claim_C9_amended.1 (2 ^ 64 - 3) (by decide) (by decide)).2⟩,
   ⟨by decide,
    claim_C9_amended.2 100 c5i [(16, false), (0, true)] (2 ^ 64 - 1) (by decide)
      (by decide) (by decide) (by decide)⟩⟩

namespace Exp

/-- Counter effect of the explicit `myfree`, independent of which of its
three branches (coalesce, no-op, LIFO insert) runs: the counters move by
the freed block's footprint, and the region fields are untouched. -/
theorem myfree_counters (s : EState) (p : Nat) (hp : p ≠ 0) :
    (myfree s p).sizeUsed = sub64 s.sizeUsed (wrap ((readW s.mem (p - 16) ^^^ 1) + 16)) ∧
    (myfree s p).freeSpace = wrap (s.freeSpace + wrap ((readW s.mem (p - 16) ^^^ 1) + 16)) ∧
    (myfree s p).heapSize = s.heapSize ∧ (myfree s p).heapStart = s.heapStart := by
  unfold myfree
  rw [if_pos hp]
  dsimp only
  split
  · split
    · exact ⟨rfl, rfl, rfl, rfl⟩
    · exact ⟨rfl, rfl, rfl, rfl⟩
  · exact ⟨rfl, rfl, rfl, rfl⟩

end Exp

/-- Claim C8: in both variants, whenever `allocate(r)` succeeds,
immediately freeing the returned pointer restores the used counter to its
pre-allocation value, in both the split and the no-split placement paths. -/
theorem claim_C8 :
    (∀ (MAXR : Nat) (s : Imp.IState) (bs : List (Nat × Bool)) (r ptr : Nat) (s' : Imp.IState),
      Imp.repIb s bs = true → 2 * s.heapSize < W →
      Imp.mymalloc MAXR s r = some (some ptr, s') →
      (Imp.myfree s' ptr).sizeUsed = s.sizeUsed) ∧
    (∀ (MAXR : Nat) (s : Exp.EState) (ns : List Nat) (r ptr : Nat) (s' : Exp.EState),
      Exp.repEb s ns = true →
      Exp.mymalloc MAXR s r = some (some ptr, s') →
      (Exp.myfree s' ptr).sizeUsed = s.sizeUsed) := by
  constructor
  · intro MAXR s bs r ptr s' hrep h2W heq
    have hrep' := hrep
    simp only [Imp.repIb, Bool.and_eq_true, decide_eq_true_eq] at hrep'
    obtain ⟨⟨-, hused⟩, hW⟩ := hrep'
    obtain ⟨v, hv2, hptr8, hhd, hsz', hbound, -, -, -⟩ :=
      (Imp.mymalloc_spec MAXR s bs r hrep).2.2 ptr s' heq
    have hvW : v < W := by omega
    unfold Imp.myfree
    rw [if_pos (by omega : ptr ≠ 0)]
    dsimp only
    rw [readW_writeW_same, hhd, xor_one_xor_one, Nat.mod_eq_of_lt hvW, hsz',
      wrap_eq_of_lt (by omega), wrap_eq_of_lt (by omega), sub64_eq_sub (by omega) (by omega)]
    omega
  · intro MAXR s ns r ptr s' hrep heq
    have hrep' := hrep
    simp only [Exp.repEb, Bool.and_eq_true, beq_iff_eq, decide_eq_true_eq] at hrep'
    obtain ⟨⟨-, hSF⟩, hW⟩ := hrep'
    obtain ⟨nd, v, hnd, hptr, hv2, hhd, hor, hvb, hsz', hfs', -, -⟩ :=
      (Exp.mymallocE_spec MAXR s ns r hrep).2.2 ptr s' heq
    obtain rfl := hptr
    have hfc := (Exp.myfree_counters s' (nd + 16) (by omega)).1
    rw [hfc]
    have hnd16 : nd + 16 - 16 = nd := by omega
    rw [hnd16, hhd, xor_one_xor_one, hsz',
      wrap_eq_of_lt (by omega), sub64_eq_sub (by omega) (by omega)]
    omega

/-- Witness for C8: concrete allocate-then-free round trips. -/
theorem claim_C8_witness :
    (Imp.repIb c5i [(16, false), (0, true)] = true ∧ 2 * c5i.heapSize < W ∧
      ∃ s', Imp.mymalloc 100 c5i 8 = some (some 16, s') ∧
        (Imp.myfree s' 16).sizeUsed = c5i.sizeUsed) ∧
    (Exp.repEb w1e [8] = true ∧
      ∃ s', Exp.mymalloc 1024 w1e 16 = some (some 24, s') ∧
        (Exp.myfree s' 24).sizeUsed = w1e.sizeUsed) := by
  constructor
  · obtain ⟨s', heq⟩ : ∃ s', Imp.mymalloc 100 c5i 8 = some (some 16, s') := ⟨_, rfl⟩
    exact ⟨by decide, by decide, s', heq,
      claim_C8.1 100 c5i [(16, false), (0, true)] 8 16 s' (by decide) (by decide) heq⟩
  · obtain ⟨s', heq⟩ : ∃ s', Exp.mymalloc 1024 w1e 16 = some (some 24, s') := ⟨_, rfl⟩
    exact ⟨by decide, s', heq, claim_C8.2 1024 w1e [8] 16 24 s' (by decide) heq⟩

theorem readW_writeStruct_ne (m : Mem) {a x : Nat} (h p n : Nat)
    (h1 : x ≠ a) (h2 : x ≠ a + 8) (h3 : x ≠ a + 16) :
    readW (Exp.writeStruct m a h p n) x = readW m x := by
  unfold Exp.writeStruct
  rw [readW_writeW_ne _ _ h3, readW_writeW_ne _ _ h2, readW_writeW_ne _ _ h1]

theorem readW_foldl_writeW (f : Nat → Nat) (dst x : Nat) :
    ∀ (l : List Nat) (m : Mem), (∀ k ∈ l, dst + 8 * k ≠ x) →
    readW (l.foldl (fun acc k => writeW acc (dst + 8 * k) (f k)) m) x = readW m x := by
  intro l
  induction l with
  | nil => intro m _; rfl
  | cons k l ih =>
    intro m hk
    simp only [List.foldl_cons]
    rw [ih _ (fun k2 hk2 => hk k2 (List.mem_cons_of_mem _ hk2))]
    exact readW_writeW_ne _ _ (fun hx => hk k (List.mem_cons_self _ _) hx.symm)

theorem readW_memmoveW_outside (m : Mem) (dst src n x : Nat)
    (hx : x < dst ∨ dst + n ≤ x) :
    readW (memmoveW m dst src n) x = readW m x := by
  unfold memmoveW
  apply readW_foldl_writeW
  intro k hk
  have hkn : k < n / 8 := List.mem_range.mp hk
  have h8 : 8 * (n / 8) ≤ n := Nat.mul_div_le n 8
  omega

namespace Exp

theorem readW_splitFunc_agree (m : Mem) (fe cf payload req x : Nat)
    (hreq : req + 16 ≤ payload)
    (hself : x < cf ∨ cf + 16 + payload < x)
    (hnext : readW m (cf + 16) ≠ 0 → x < readW m (cf + 16) ∨ readW m (cf + 16) + 16 < x)
    (hprev : readW m (cf + 8) ≠ 0 → x < readW m (cf + 8) ∨ readW m (cf + 8) + 16 < x) :
    readW (splitFunc m fe cf payload req).1 x = readW m x := by
  unfold splitFunc
  dsimp only
  by_cases hp : readW m (cf + 8) ≠ 0
  · rw [if_pos hp]
    dsimp only
    have hpd := hprev hp
    by_cases hn : readW m (cf + 16) ≠ 0
    · rw [if_pos hn]
      have hnd := hnext hn
      rw [readW_writeStruct_ne _ _ _ _ (by omega) (by omega) (by omega),
        readW_writeStruct_ne _ _ _ _ (by omega) (by omega) (by omega),
        readW_writeStruct_ne _ _ _ _ (by omega) (by omega) (by omega)]
    · rw [if_neg hn]
      rw [readW_writeStruct_ne _ _ _ _ (by omega) (by omega) (by omega),
        readW_writeStruct_ne _ _ _ _ (by omega) (by omega) (by omega)]
  · rw [if_neg hp]
    dsimp only
    by_cases hn : readW m (cf + 16) ≠ 0
    · rw [if_pos hn]
      have hnd := hnext hn
      rw [readW_writeStruct_ne _ _ _ _ (by omega) (by omega) (by omega),
        readW_writeStruct_ne _ _ _ _ (by omega) (by omega) (by omega)]
    · rw [if_neg hn]
      rw [readW_writeStruct_ne _ _ _ _ (by omega) (by omega) (by omega)]

theorem readW_cantSplit_agree (m : Mem) (fe cf payload x : Nat)
    (hnext : readW m (cf + 16) ≠ 0 → x < readW m (cf + 16) ∨ readW m (cf + 16) + 16 < x)
    (hprev : readW m (cf + 8) ≠ 0 → x < readW m (cf + 8) ∨ readW m (cf + 8) + 16 < x) :
    readW (cantSplit m fe cf payload).1 x = readW m x := by
  unfold cantSplit
  dsimp only
  by_cases hn : readW m (cf + 16) ≠ 0
  · rw [if_pos hn]
    dsimp only
    have hnd := hnext hn
    by_cases hp : readW m (cf + 8) ≠ 0
    · rw [if_pos hp]
      have hpd := hprev hp
      dsimp only
      rw [readW_writeStruct_ne _ _ _ _ (by omega) (by omega) (by omega),
        readW_writeStruct_ne _ _ _ _ (by omega) (by omega) (by omega)]
    · rw [if_neg hp]
      dsimp only
      rw [readW_writeStruct_ne _ _ _ _ (by omega) (by omega) (by omega)]
  · rw [if_neg hn]
    by_cases hp : readW m (cf + 8) ≠ 0
    · rw [if_pos hp]
      have hpd := hprev hp
      dsimp only
      rw [if_pos hp]
      dsimp only
      rw [readW_writeStruct_ne _ _ _ _ (by omega) (by omega) (by omega)]
    · rw [if_neg hp]
      dsimp only
      rw [if_neg hp]

end Exp

namespace Exp

/-- Counter-sum preservation through the realloc walk: on a well-formed
free list, with an old block whose header is outside every free node's
span and whose footprint is within the used counter, every result of the
walk (null or relocation followed by freeing the old block) keeps
`sizeUsed + freeSpace` equal to the region length. -/
theorem reallocLoop_sum (MAXR r old_ptr old_payload : Nat) (s : EState)
    (hsum : s.sizeUsed + s.freeSpace = s.heapSize) (hW : s.heapSize < W)
    (hre : r % 2 = 0) (hrW : r < W)
    (hop : old_payload < r)
    (hold16 : 16 ≤ old_ptr)
    (holdsz : wrap ((readW s.mem (old_ptr - 16) ^^^ 1) + 16) ≤ s.sizeUsed) :
    ∀ (ns : List Nat) (cur prevA space fuel : Nat),
    flistD s.mem cur prevA ns = true →
    space = sumFree s.mem ns → space ≤ s.freeSpace →
    (∀ a ∈ ns, old_ptr - 16 < a ∨ a + 16 + readW s.mem a < old_ptr - 16) →
    (prevA = 0 ∨ old_ptr - 16 < prevA ∨ prevA + 16 + readW s.mem prevA < old_ptr - 16) →
    ns.length < fuel →
    ∀ res s', reallocLoop MAXR r old_ptr old_payload s space cur fuel = some (res, s') →
      s'.sizeUsed + s'.freeSpace = s.heapSize ∧ s'.heapSize = s.heapSize := by
  have hFW : s.freeSpace < W := by omega
  intro ns
  induction ns with
  | nil =>
    intro cur prevA space fuel hfl hsp hsF hdisj hpdisj hfuel res s' heqr
    have hcur : cur = 0 := by simpa [flistD] using hfl
    have hsp0 : space = 0 := by simpa [sumFree] using hsp
    obtain ⟨f, rfl⟩ : ∃ f, fuel = f + 1 := ⟨fuel - 1, by omega⟩
    have hres : reallocLoop MAXR r old_ptr old_payload s space cur (f + 1) = some (none, s) := by
      simp [reallocLoop, hsp0]
    rw [hres] at heqr
    injection heqr with h'
    injection h' with h1 h2
    rw [← h2]
    exact ⟨hsum, rfl⟩
  | cons a ns ih =>
    intro cur prevA space fuel hfl hsp hsF hdisj hpdisj hfuel res s' heqr
    simp only [flistD, Bool.and_eq_true, beq_iff_eq, decide_eq_true_eq] at hfl
    obtain ⟨⟨⟨⟨hcur, hapos⟩, heven⟩, hprev⟩, htl⟩ := hfl
    rw [hcur] at heqr
    rw [sumFree_cons] at hsp
    have hhW : readW s.mem a < W := readW_lt _ _
    have hsum_le : 16 + readW s.mem a ≤ space := by omega
    have hspace0 : ¬space = 0 := by omega
    have hane : ¬a = 0 := by omega
    obtain ⟨f, rfl⟩ : ∃ f, fuel = f + 1 := ⟨fuel - 1, by omega⟩
    have hfuel' : ns.length < f := by
      simp only [List.length_cons] at hfuel; omega
    have hl0 : readW s.mem a &&& 1 = 0 := by rw [land_one]; omega
    have hselfd : old_ptr - 16 < a ∨ a + 16 + readW s.mem a < old_ptr - 16 :=
      hdisj a (List.mem_cons_self _ _)
    have hnextd : readW s.mem (a + 16) ≠ 0 →
        old_ptr - 16 < readW s.mem (a + 16) ∨ readW s.mem (a + 16) + 16 < old_ptr - 16 := by
      intro hne
      cases ns with
      | nil =>
        exfalso
        have : readW s.mem (a + 16) = 0 := by simpa [flistD] using htl
        exact hne this
      | cons b ns' =>
        have hb : readW s.mem (a + 16) = b := by
          simp only [flistD, Bool.and_eq_true, beq_iff_eq, decide_eq_true_eq] at htl
          exact htl.1.1.1.1
        have := hdisj b (List.mem_cons_of_mem _ (List.mem_cons_self _ _))
        rw [hb]
        omega
    have hprevd : readW s.mem (a + 8) ≠ 0 →
        old_ptr - 16 < readW s.mem (a + 8) ∨ readW s.mem (a + 8) + 16 < old_ptr - 16 := by
      intro hne
      rw [hprev] at hne ⊢
      rcases hpdisj with h | h | h
      · exact absurd h hne
      · exact Or.inl h
      · exact Or.inr (by omega)
    by_cases hrh : r ≤ readW s.mem a
    · -- placement succeeds at this node; the old block is then freed
      have hcond : readW s.mem a &&& 1 = 0 ∧ r ≤ MAXR ∧ r ≤ readW s.mem a → True := fun _ => trivial
      have hsub : sub64 (readW s.mem a) r = readW s.mem a - r := sub64_eq_sub hrh hhW
      by_cases hMR : r ≤ MAXR
      · have hcondT : readW s.mem a &&& 1 = 0 ∧ r ≤ MAXR ∧ r ≤ readW s.mem a := ⟨hl0, hMR, hrh⟩
        by_cases hsp24 : 24 < readW s.mem a - r
        · -- split path
          have hu : (splitFunc s.mem s.freeEnd a (readW s.mem a) r).2.1 = 16 + r := by
            rw [splitFunc_used, wrap_eq_of_lt (by omega)]
          have hpl : (splitFunc s.mem s.freeEnd a (readW s.mem a) r).2.2.1 = r :=
            splitFunc_payload _ _ _ _ _
          have hrl : r &&& 1 = 0 := by rw [land_one]; omega
          have hstep : reallocLoop MAXR r old_ptr old_payload s space a (f + 1) =
              some (some (a + 16),
                myfree
                  { s with
                    mem := memmoveW (writeStruct (splitFunc s.mem s.freeEnd a (readW s.mem a) r).1 a
                      (r ^^^ 1) (readW s.mem (a + 8)) (readW s.mem (a + 16))) (a + 16) old_ptr old_payload
                    sizeUsed := wrap (s.sizeUsed + (16 + r))
                    freeSpace := sub64 s.freeSpace (16 + r)
                    freeEnd := (splitFunc s.mem s.freeEnd a (readW s.mem a) r).2.2.2 } old_ptr) := by
            simp only [reallocLoop, if_neg hspace0, if_neg hane, if_pos hcondT, hsub,
              if_pos hsp24, hu, hpl, hrl, if_true]
          rw [hstep] at heqr
          injection heqr with h'
          injection h' with h1 h2
          rw [← h2]
          have hagree : readW (memmoveW (writeStruct (splitFunc s.mem s.freeEnd a (readW s.mem a) r).1 a
              (r ^^^ 1) (readW s.mem (a + 8)) (readW s.mem (a + 16))) (a + 16) old_ptr old_payload)
              (old_ptr - 16) = readW s.mem (old_ptr - 16) := by
            rw [readW_memmoveW_outside _ _ _ _ _ (by omega)]
            rw [readW_writeStruct_ne _ _ _ _ (by omega) (by omega) (by omega)]
            exact readW_splitFunc_agree s.mem _ _ _ _ _ (by omega) hselfd
              (fun hne => by have := hnextd hne; omega)
              (fun hne => by have := hprevd hne; omega)
          have hfc := myfree_counters
            { s with
              mem := memmoveW (writeStruct (splitFunc s.mem s.freeEnd a (readW s.mem a) r).1 a
                (r ^^^ 1) (readW s.mem (a + 8)) (readW s.mem (a + 16))) (a + 16) old_ptr old_payload
              sizeUsed := wrap (s.sizeUsed + (16 + r))
              freeSpace := sub64 s.freeSpace (16 + r)
              freeEnd := (splitFunc s.mem s.freeEnd a (readW s.mem a) r).2.2.2 } old_ptr
            (by omega)
          obtain ⟨hfc1, hfc2, hfc3, -⟩ := hfc
          rw [hfc1, hfc2, hfc3]
          dsimp only at hagree ⊢
          rw [hagree]
          have hwu : wrap (s.sizeUsed + (16 + r)) = s.sizeUsed + (16 + r) :=
            wrap_eq_of_lt (by omega)
          have hfu : sub64 s.freeSpace (16 + r) = s.freeSpace - (16 + r) :=
            sub64_eq_sub (by omega) hFW
          set d := wrap ((readW s.mem (old_ptr - 16) ^^^ 1) + 16) with hd
          have hdW : d < W := wrap_lt _
          rw [hwu, hfu, sub64_eq_sub (by omega) (by omega), wrap_eq_of_lt (by omega)]
          constructor
          · omega
          · rfl
        · -- whole-block path
          have hu : (cantSplit s.mem s.freeEnd a (readW s.mem a)).2.1 = 16 + readW s.mem a := by
            rw [cantSplit_used, wrap_eq_of_lt (by omega)]
          have hstep : reallocLoop MAXR r old_ptr old_payload s space a (f + 1) =
              some (some (a + 16),
                myfree
                  { s with
                    mem := memmoveW (writeStruct (cantSplit s.mem s.freeEnd a (readW s.mem a)).1 a
                      (readW s.mem a ^^^ 1) (readW s.mem (a + 8)) (readW s.mem (a + 16))) (a + 16) old_ptr old_payload
                    sizeUsed := wrap (s.sizeUsed + (16 + readW s.mem a))
                    freeSpace := sub64 s.freeSpace (16 + readW s.mem a)
                    freeEnd := (cantSplit s.mem s.freeEnd a (readW s.mem a)).2.2 } old_ptr) := by
            simp only [reallocLoop, if_neg hspace0, if_neg hane, if_pos hcondT, hsub,
              if_neg hsp24, hu, hl0, if_true]
            rw [if_pos (⟨trivial, hMR, hrh⟩ : True ∧ r ≤ MAXR ∧ r ≤ readW s.mem a)]
          rw [hstep] at heqr
          injection heqr with h'
          injection h' with h1 h2
          rw [← h2]
          have hagree : readW (memmoveW (writeStruct (cantSplit s.mem s.freeEnd a (readW s.mem a)).1 a
              (readW s.mem a ^^^ 1) (readW s.mem (a + 8)) (readW s.mem (a + 16))) (a + 16) old_ptr old_payload)
              (old_ptr - 16) = readW s.mem (old_ptr - 16) := by
            rw [readW_memmoveW_outside _ _ _ _ _ (by omega)]
            rw [readW_writeStruct_ne _ _ _ _ (by omega) (by omega) (by omega)]
            exact readW_cantSplit_agree s.mem _ _ _ _
              (fun hne => by have := hnextd hne; omega)
              (fun hne => by have := hprevd hne; omega)
          have hfc := myfree_counters
            { s with
              mem := memmoveW (writeStruct (cantSplit s.mem s.freeEnd a (readW s.mem a)).1 a
                (readW s.mem a ^^^ 1) (readW s.mem (a + 8)) (readW s.mem (a + 16))) (a + 16) old_ptr old_payload
              sizeUsed := wrap (s.sizeUsed + (16 + readW s.mem a))
              freeSpace := sub64 s.freeSpace (16 + readW s.mem a)
              freeEnd := (cantSplit s.mem s.freeEnd a (readW s.mem a)).2.2 } old_ptr
            (by omega)
          obtain ⟨hfc1, hfc2, hfc3, -⟩ := hfc
          rw [hfc1, hfc2, hfc3]
          dsimp only at hagree ⊢
          rw [hagree]
          have hwu : wrap (s.sizeUsed + (16 + readW s.mem a)) = s.sizeUsed + (16 + readW s.mem a) :=
            wrap_eq_of_lt (by omega)
          have hfu : sub64 s.freeSpace (16 + readW s.mem a) = s.freeSpace - (16 + readW s.mem a) :=
            sub64_eq_sub (by omega) hFW
          set d := wrap ((readW s.mem (old_ptr - 16) ^^^ 1) + 16) with hd
          have hdW : d < W := wrap_lt _
          rw [hwu, hfu, sub64_eq_sub (by omega) (by omega), wrap_eq_of_lt (by omega)]
          constructor
          · omega
          · rfl
      · -- request exceeds the host bound: the node is skipped
        have harg : sub64 space (wrap (16 + readW s.mem a)) = sumFree s.mem ns := by
          rw [wrap_eq_of_lt (by omega), sub64_eq_sub hsum_le (by omega)]
          omega
        have hstep : reallocLoop MAXR r old_ptr old_payload s space a (f + 1) =
            reallocLoop MAXR r old_ptr old_payload s (sumFree s.mem ns) (readW s.mem (a + 16)) f := by
          simp only [reallocLoop, if_neg hspace0, if_neg hane]
          rw [if_neg (by rintro ⟨-, c, -⟩; exact hMR c), harg]
        rw [hstep] at heqr
        exact ih (readW s.mem (a + 16)) a (sumFree s.mem ns) f htl rfl (by omega)
          (fun b hb => hdisj b (List.mem_cons_of_mem _ hb)) (Or.inr hselfd) hfuel' res s' heqr
    · -- node too small: skipped
      have harg : sub64 space (wrap (16 + readW s.mem a)) = sumFree s.mem ns := by
        rw [wrap_eq_of_lt (by omega), sub64_eq_sub hsum_le (by omega)]
        omega
      have hstep : reallocLoop MAXR r old_ptr old_payload s space a (f + 1) =
          reallocLoop MAXR r old_ptr old_payload s (sumFree s.mem ns) (readW s.mem (a + 16)) f := by
        simp only [reallocLoop, if_neg hspace0, if_neg hane]
        rw [if_neg (by rintro ⟨-, -, c⟩; exact hrh c), harg]
      rw [hstep] at heqr
      exact ih (readW s.mem (a + 16)) a (sumFree s.mem ns) f htl rfl (by omega)
        (fun b hb => hdisj b (List.mem_cons_of_mem _ hb)) (Or.inr hselfd) hfuel' res s' heqr

end Exp

namespace Exp

/-- Counter-sum preservation through the explicit `mymalloc`. -/
theorem mymalloc_sum (MAXR : Nat) (s : EState) (ns : List Nat) (r : Nat)
    (res : Option Nat) (s' : EState)
    (hrep : repEb s ns = true) (hsum : s.sizeUsed + s.freeSpace = s.heapSize)
    (heq : mymalloc MAXR s r = some (res, s')) :
    s'.sizeUsed + s'.freeSpace = s'.heapSize := by
  have spec := mymallocE_spec MAXR s ns r hrep
  rcases spec.2.1 with hnone | ⟨ptr, s2, hsome⟩
  · rw [hnone] at heq
    injection heq with h'
    injection h' with h1 h2
    rw [← h2]
    exact hsum
  · obtain ⟨nd, v, -, -, -, -, -, hvb, hsz', hfs', -, hhs⟩ := spec.2.2 ptr s2 hsome
    rw [hsome] at heq
    injection heq with h'
    injection h' with h1 h2
    rw [← h2, hsz', hfs', hhs]
    omega

end Exp

/-- Claim C6: in the explicit variant `sizeUsed + freeSpace = heapSize`
holds after init and is preserved by every allocate, free, and reallocate
call (freeing presumes a pointer whose recorded footprint is covered by
the used counter, and reallocating an old block whose header lies outside
every free node's span, as `oldBlockOK` states). -/
theorem claim_C6 :
    (∀ (m0 : Mem) (b n : Nat) (s : Exp.EState), Exp.myinit m0 b n = some s →
      s.sizeUsed + s.freeSpace = s.heapSize) ∧
    (∀ (MAXR : Nat) (s : Exp.EState) (ns : List Nat) (r : Nat) (res : Option Nat) (s' : Exp.EState),
      Exp.repEb s ns = true → s.sizeUsed + s.freeSpace = s.heapSize →
      Exp.mymalloc MAXR s r = some (res, s') → s'.sizeUsed + s'.freeSpace = s'.heapSize) ∧
    (∀ (s : Exp.EState) (p : Nat),
      s.sizeUsed + s.freeSpace = s.heapSize → s.heapSize < W →
      (p ≠ 0 → wrap ((readW s.mem (p - 16) ^^^ 1) + 16) ≤ s.sizeUsed) →
      (Exp.myfree s p).sizeUsed + (Exp.myfree s p).freeSpace = (Exp.myfree s p).heapSize) ∧
    (∀ (MAXR : Nat) (s : Exp.EState) (ns : List Nat) (old nsz : Nat) (res : Option Nat) (s' : Exp.EState),
      Exp.repEb s ns = true → s.sizeUsed + s.freeSpace = s.heapSize →
      (old ≠ 0 → Exp.oldBlockOK s ns old = true) →
      Exp.myrealloc MAXR s old nsz = some (res, s') → s'.sizeUsed + s'.freeSpace = s'.heapSize) := by
  have hfree_sum : ∀ (s : Exp.EState) (p : Nat),
      s.sizeUsed + s.freeSpace = s.heapSize → s.heapSize < W →
      (p ≠ 0 → wrap ((readW s.mem (p - 16) ^^^ 1) + 16) ≤ s.sizeUsed) →
      (Exp.myfree s p).sizeUsed + (Exp.myfree s p).freeSpace = (Exp.myfree s p).heapSize := by
    intro s p hsum hW hcov
    by_cases hp : p = 0
    · have : Exp.myfree s p = s := by
        unfold Exp.myfree
        rw [if_neg (by simp [hp])]
      rw [this]
      exact hsum
    · obtain ⟨h1, h2, h3, -⟩ := Exp.myfree_counters s p hp
      have hd := hcov hp
      have hdW : wrap ((readW s.mem (p - 16) ^^^ 1) + 16) < W := wrap_lt _
      have hSW : s.sizeUsed < W := by omega
      have hs1 : sub64 s.sizeUsed (wrap ((readW s.mem (p - 16) ^^^ 1) + 16)) =
          s.sizeUsed - wrap ((readW s.mem (p - 16) ^^^ 1) + 16) := sub64_eq_sub hd hSW
      have hs2 : wrap (s.freeSpace + wrap ((readW s.mem (p - 16) ^^^ 1) + 16)) =
          s.freeSpace + wrap ((readW s.mem (p - 16) ^^^ 1) + 16) := wrap_eq_of_lt (by omega)
      rw [h1, h2, h3, hs1, hs2]
      omega
  refine ⟨?_, ?_, hfree_sum, ?_⟩
  · intro m0 b n s heq
    unfold Exp.myinit at heq
    by_cases hb : b = 0
    · rw [if_pos hb] at heq
      simp at heq
    · rw [if_neg hb] at heq
      injection heq with heq'
      rw [← heq']
      simp
  · intro MAXR s ns r res s' hrep hsum heq
    exact Exp.mymalloc_sum MAXR s ns r res s' hrep hsum heq
  · intro MAXR s ns old nsz res s' hrep hsum hob heq
    have hrep' := hrep
    simp only [Exp.repEb, Bool.and_eq_true, beq_iff_eq, decide_eq_true_eq] at hrep'
    obtain ⟨⟨⟨hfl, hfs⟩, hSF⟩, hW⟩ := hrep'
    by_cases hz : nsz = 0 ∧ old ≠ 0
    · have hres : Exp.myrealloc MAXR s old nsz = some (some old, Exp.myfree s old) := by
        simp only [Exp.myrealloc]
        rw [if_pos hz]
      rw [hres] at heq
      injection heq with h'
      injection h' with h1 h2
      rw [← h2]
      have hobr := hob hz.2
      simp only [Exp.oldBlockOK, Bool.and_eq_true, beq_iff_eq, decide_eq_true_eq] at hobr
      obtain ⟨⟨⟨-, -⟩, hosz0⟩, -⟩ := hobr
      exact hfree_sum s old hsum hW (fun _ => hosz0)
    · by_cases hg : MAXR < Exp.roundup nsz ∨ s.heapSize < wrap (Exp.roundup nsz + s.sizeUsed)
      · have hres : Exp.myrealloc MAXR s old nsz = some (none, s) := by
          simp only [Exp.myrealloc]
          rw [if_neg hz, if_pos hg]
        rw [hres] at heq
        injection heq with h'
        injection h' with h1 h2
        rw [← h2]
        exact hsum
      · by_cases ho0 : old = 0
        · have hres : Exp.myrealloc MAXR s old nsz = Exp.mymalloc MAXR s nsz := by
            simp only [Exp.myrealloc]
            rw [if_neg hz, if_neg hg, if_pos ho0]
          rw [hres] at heq
          exact Exp.mymalloc_sum MAXR s ns nsz res s' hrep hsum heq
        · by_cases hip : Exp.roundup nsz ≤ readW s.mem (old - 16) ^^^ 1
          · have hres : Exp.myrealloc MAXR s old nsz = some (some old, s) := by
              simp only [Exp.myrealloc]
              rw [if_neg hz, if_neg hg, if_neg ho0, if_pos hip]
            rw [hres] at heq
            injection heq with h'
            injection h' with h1 h2
            rw [← h2]
            exact hsum
          · have hres : Exp.myrealloc MAXR s old nsz =
                Exp.reallocLoop MAXR (Exp.roundup nsz) old (readW s.mem (old - 16) ^^^ 1) s
                  s.freeSpace s.freeEnd (s.freeSpace + 1) := by
              simp only [Exp.myrealloc]
              rw [if_neg hz, if_neg hg, if_neg ho0, if_neg hip]
            rw [hres] at heq
            have hobr := hob ho0
            simp only [Exp.oldBlockOK, Bool.and_eq_true, beq_iff_eq, decide_eq_true_eq,
              List.all_eq_true, Bool.or_eq_true] at hobr
            obtain ⟨⟨⟨ho16, -⟩, hosz⟩, hdisj⟩ := hobr
            have hlen : ns.length < s.freeSpace + 1 := by
              have h16 := Exp.sumFree_length_le (m := s.mem) ns
              omega
            have hres2 := Exp.reallocLoop_sum MAXR (Exp.roundup nsz) old
              (readW s.mem (old - 16) ^^^ 1) s hsum hW (Exp.roundupE_even _) (Exp.roundupE_lt _)
              (by omega) ho16 hosz ns s.freeEnd 0 s.freeSpace (s.freeSpace + 1)
              hfl hfs (le_refl _)
              (fun a ha => by
                have := hdisj a ha
                simpa [decide_eq_true_eq] using this)
              (Or.inl rfl) hlen res s' heq
            rw [hres2.2]
            exact hres2.1

/-- An 80-byte explicit region: allocated block (payload 16) at 8, free
block (payload 32) at 40 on the free list. -/
def w6e : Exp.EState :=
  { mem := fun a => if a = 8 then 17 else if a = 40 then 32 else 0,
    heapStart := 8, heapSize := 80, sizeUsed := 32, freeEnd := 40, freeSpace := 48 }

/-- Witness for C6 on concrete runs of all four operations. -/
theorem claim_C6_witness :
    (∃ s, Exp.myinit zeroMem 8 64 = some s ∧ s.sizeUsed + s.freeSpace = s.heapSize) ∧
    (Exp.repEb w1e [8] = true ∧ w1e.sizeUsed + w1e.freeSpace = w1e.heapSize ∧
      ∃ res s', Exp.mymalloc 1024 w1e 16 = some (res, s') ∧
        s'.sizeUsed + s'.freeSpace = s'.heapSize) ∧
    (w7e.sizeUsed + w7e.freeSpace = w7e.heapSize ∧ w7e.heapSize < W ∧
      wrap ((readW w7e.mem (24 - 16) ^^^ 1) + 16) ≤ w7e.sizeUsed ∧
      (Exp.myfree w7e 24).sizeUsed + (Exp.myfree w7e 24).freeSpace = (Exp.myfree w7e 24).heapSize) ∧
    (Exp.repEb w6e [40] = true ∧ w6e.sizeUsed + w6e.freeSpace = w6e.heapSize ∧
      Exp.oldBlockOK w6e [40] 24 = true ∧
      ∃ res s', Exp.myrealloc 1024 w6e 24 24 = some (res, s') ∧
        s'.sizeUsed + s'.freeSpace = s'.heapSize) := by
  refine ⟨?_, ?_, ?_, ?_⟩
  · exact ⟨_, rfl, claim_C6.1 zeroMem 8 64 _ rfl⟩
  · obtain ⟨res, s', heq⟩ : ∃ res s', Exp.mymalloc 1024 w1e 16 = some (res, s') := ⟨_, _, rfl⟩
    exact ⟨by decide, by decide, res, s', heq,
      claim_C6.2.1 1024 w1e [8] 16 res s' (by decide) (by decide) heq⟩
  · exact ⟨by decide, by decide, by decide,
      claim_C6.2.2.1 w7e 24 (by decide) (by decide) (fun _ => by decide)⟩
  · obtain ⟨res, s', heq⟩ : ∃ res s', Exp.myrealloc 1024 w6e 24 24 = some (res, s') := ⟨_, _, rfl⟩
    exact ⟨by decide, by decide, by decide, res, s', heq,
      claim_C6.2.2.2 1024 w6e [40] 24 24 res s' (by decide) (by decide) (fun _ => by decide) heq⟩
